import Mathlib

/-!
# HttpToxic (toxics/httptoxic.go)

A shallow embedding of the HTTP toxic: the header-list parser `parseHeaders`,
the rewrite engine `HttpToxic.ModifyResponse` and the streaming loop
`HttpToxic.Pipe`.

Modelling conventions.

* A Go `string` is a list of Unicode code points (`GoString`); `len` is the
  length of its UTF-8 encoding (`GoString.len`), `[]byte(s)` is that encoding.
* A Go `map[string]V` is an association list with pairwise distinct keys
  (`GoMap V`); `m[k] = v` is `GoMap.set` and `m[k]` is `GoMap.get`.
* The functions of the Go standard library are written from their documented
  behaviour (`strings.Split`, `strings.SplitN`, `strings.TrimSpace`,
  `unicode.IsSpace`, `textproto.CanonicalMIMEHeaderKey`, `http.Header.Set`).
* `http.ReadResponse` and `Response.Write` are parameters of the loop
  (`NetHttp`); where a statement depends on what they do with given bytes, it
  is made on `goNet`, a model of the two written from Go 1.22.
* A channel is the list of values that are ready on it, oldest first; the
  `select` statement of `Pipe` is a choice among the cases that can proceed,
  and a send on `Output` completes (the downstream stage receives).
-/

namespace Toxics

/-! ## Strings -/

/-- A Go string, as its sequence of code points. -/
abbrev GoString := List Char

/-- The UTF-8 encoding of one code point, as byte values. -/
def utf8Encode (c : Char) : List Nat :=
  let n := c.toNat
  if n < 0x80 then [n]
  else if n < 0x800 then [0xC0 + n / 0x40, 0x80 + n % 0x40]
  else if n < 0x10000 then [0xE0 + n / 0x1000, 0x80 + n / 0x40 % 0x40, 0x80 + n % 0x40]
  else [0xF0 + n / 0x40000, 0x80 + n / 0x1000 % 0x40, 0x80 + n / 0x40 % 0x40, 0x80 + n % 0x40]

/-- The bytes of a Go string: `[]byte(s)`. -/
def GoString.bytes (s : GoString) : List Nat :=
  s.flatMap utf8Encode

/-- The builtin `len(s)` of a Go string: its number of bytes. -/
def GoString.len (s : GoString) : Nat :=
  (GoString.bytes s).length

/-- The function `unicode.IsSpace`: the Latin-1 spaces
`'\t', '\n', '\v', '\f', '\r', ' ', U+0085, U+00A0` and, above Latin-1, the
code points of the `White_Space` table. -/
def IsSpace (r : Char) : Bool :=
  let n := r.toNat
  if n ≤ 0xFF then
    n = 0x09 || n = 0x0A || n = 0x0B || n = 0x0C || n = 0x0D || n = 0x20 || n = 0x85 || n = 0xA0
  else
    n = 0x1680 || (0x2000 ≤ n && n ≤ 0x200A) || n = 0x2028 || n = 0x2029 || n = 0x202F
      || n = 0x205F || n = 0x3000

/-- The function `strings.TrimSpace`: `s` without its leading and trailing
white space. -/
def TrimSpace (s : GoString) : GoString :=
  (s.dropWhile IsSpace).rdropWhile IsSpace

/-- The text before the first `sep` and the text after it, or `none` when `sep`
does not occur in `s` (`strings.Index` followed by the two slices). -/
def cut (sep : Char) : GoString → Option (GoString × GoString)
  | [] => none
  | c :: cs =>
    if c = sep then some ([], cs)
    else match cut sep cs with
      | none => none
      | some (before, after) => some (c :: before, after)

/-- The loop of `strings.genSplit`: cut `s` at `sep` at most `n` times; the last
element is the remainder, not cut. -/
def genSplitLoop (sep : Char) : Nat → GoString → List GoString
  | 0, s => [s]
  | n + 1, s =>
    match cut sep s with
    | none => [s]
    | some (before, after) => before :: genSplitLoop sep n after

/-- The function `strings.Count` for a separator of one character. -/
def Count (s : GoString) (sep : Char) : Nat :=
  s.count sep

/-- The function `strings.SplitN` for a separator of one character: no
substring when `n = 0`, at most `n` substrings when `n > 0` (the last one the
remainder, not split), all substrings when `n < 0`. The cap of `n` at
`len(s) + 1` in `genSplit` bounds the allocation only and is left out. -/
def SplitN (s : GoString) (sep : Char) (n : Int) : List GoString :=
  if n = 0 then []
  else
    let n := if n < 0 then Count s sep + 1 else n.toNat
    genSplitLoop sep (n - 1) s

/-- The function `strings.Split`: `SplitN` with a count of `-1`. -/
def Split (s : GoString) (sep : Char) : List GoString :=
  SplitN s sep (-1)

/-! ## Maps -/

/-- A Go `map[string]V`: the entries, with pairwise distinct keys. -/
structure GoMap (V : Type) where
  entries : List (GoString × V)
deriving DecidableEq, Repr

/-- The empty map `map[string]V{}`. -/
def GoMap.empty {V : Type} : GoMap V := ⟨[]⟩

/-- Assignment to a list of entries: replace the value of `key` when it is
present, add the entry otherwise. -/
def setEntries {V : Type} : List (GoString × V) → GoString → V → List (GoString × V)
  | [], key, val => [(key, val)]
  | (k, v) :: m, key, val =>
    if k = key then (k, val) :: m else (k, v) :: setEntries m key val

/-- Lookup in a list of entries. -/
def getEntries {V : Type} : List (GoString × V) → GoString → Option V
  | [], _ => none
  | (k, v) :: m, key => if k = key then some v else getEntries m key

/-- The statement `m[key] = val`. -/
def GoMap.set {V : Type} (m : GoMap V) (key : GoString) (val : V) : GoMap V :=
  ⟨setEntries m.entries key val⟩

/-- The expression `v, ok := m[key]`. -/
def GoMap.get {V : Type} (m : GoMap V) (key : GoString) : Option V :=
  getEntries m.entries key

/-- The builtin `len(m)`. -/
def GoMap.len {V : Type} (m : GoMap V) : Nat :=
  m.entries.length

/-- The keys of a map are pairwise distinct. -/
def GoMap.WF {V : Type} (m : GoMap V) : Prop :=
  (m.entries.map Prod.fst).Nodup

instance GoMap.decidableWF {V : Type} (m : GoMap V) : Decidable (GoMap.WF m) :=
  inferInstanceAs (Decidable (m.entries.map Prod.fst).Nodup)

/-! ## The header-list parser -/

/-- The body of the loop of `parseHeaders`, for one element of `pairs`. -/
def parseHeadersPair (headers : GoMap GoString) (pair : GoString) : GoMap GoString :=
  match SplitN pair ':' 2 with
  | [key, value] => GoMap.set headers (TrimSpace key) (TrimSpace value)
  | _ => headers

/-- The function `parseHeaders`: parse headers from a semicolon-separated
string. -/
def parseHeaders (headerString : GoString) : GoMap GoString :=
  let headers : GoMap GoString := GoMap.empty
  if GoString.len headerString = 0 then headers
  else (Split headerString ';').foldl parseHeadersPair headers

/-! ## HTTP responses -/

/-- The function `validHeaderFieldByte` of `net/textproto`: the token
characters of RFC 7230, that is the digits, the letters and the fifteen
punctuation marks listed there (from `!`, 0x21, to `~`, 0x7E). -/
def validHeaderFieldByte (c : Char) : Bool :=
  let n := c.toNat
  (0x30 ≤ n && n ≤ 0x39) || (0x41 ≤ n && n ≤ 0x5A) || (0x61 ≤ n && n ≤ 0x7A)
    || n = 0x21 || n = 0x23 || n = 0x24 || n = 0x25 || n = 0x26 || n = 0x27 || n = 0x2A
    || n = 0x2B || n = 0x2D || n = 0x2E || n = 0x5E || n = 0x5F || n = 0x60 || n = 0x7C
    || n = 0x7E

/-- The second loop of `canonicalMIMEHeaderKey`: upper case for the first
letter and for a letter after a dash, lower case for the other letters. -/
def canonicalLoop : Bool → GoString → GoString
  | _, [] => []
  | upper, c :: cs =>
    let c :=
      if upper && ('a' ≤ c && c ≤ 'z') then Char.ofNat (c.toNat - 32)
      else if !upper && ('A' ≤ c && c ≤ 'Z') then Char.ofNat (c.toNat + 32)
      else c
    c :: canonicalLoop (c = '-') cs

/-- The function `textproto.CanonicalMIMEHeaderKey`: a key with a character
that is not a valid header field byte (a space, a code point above ASCII) is
returned as it is, any other key in its canonical form. -/
def CanonicalMIMEHeaderKey (s : GoString) : GoString :=
  if s.all validHeaderFieldByte then canonicalLoop true s else s

/-- The type `http.Header`, a `map[string][]string`. -/
abbrev Header := GoMap (List GoString)

/-- The method `Header.Set`: the entry of the canonical key becomes the single
value `value`. -/
def Header.Set (h : Header) (key value : GoString) : Header :=
  GoMap.set h (CanonicalMIMEHeaderKey key) [value]

/-- The method `Header.Values`: the values of the canonical key. -/
def Header.Values (h : Header) (key : GoString) : Option (List GoString) :=
  GoMap.get h (CanonicalMIMEHeaderKey key)

/-- The type `http.Response`, for a response read without a request. `Body` is
the sequence of bytes that reading the body yields. -/
structure Response where
  Status : GoString
  StatusCode : Int
  Proto : GoString
  ProtoMajor : Int
  ProtoMinor : Int
  Header : Toxics.Header
  Body : List Nat
  ContentLength : Int
  TransferEncoding : List GoString
  Close : Bool
  Uncompressed : Bool
  Trailer : Toxics.Header
deriving DecidableEq, Repr

/-- The Go type `error`, as its message. -/
abbrev GoError := String

instance exceptDecidableEq {ε α : Type} [DecidableEq ε] [DecidableEq α] :
    DecidableEq (Except ε α)
  | Except.ok a, Except.ok b =>
    if h : a = b then isTrue (by rw [h]) else isFalse (fun e => h (by cases e; rfl))
  | Except.error a, Except.error b =>
    if h : a = b then isTrue (by rw [h]) else isFalse (fun e => h (by cases e; rfl))
  | Except.ok _, Except.error _ => isFalse (fun e => by cases e)
  | Except.error _, Except.ok _ => isFalse (fun e => by cases e)

/-- The two functions of `net/http` that `Pipe` calls: `http.ReadResponse` on
the bytes of a chunk, and `Response.Write` as the bytes it writes to the
buffer. -/
structure NetHttp where
  ReadResponse : List Nat → Except GoError Response
  Write : Response → List Nat

/-! ## The toxic -/

/-- The type `HttpToxic`. -/
structure HttpToxic where
  StatusCode : Int
  ResponseHeaders : GoMap GoString
  ResponseBody : GoString
deriving DecidableEq, Repr

/-- The method `GetBufferSize`. -/
def HttpToxic.GetBufferSize (_t : HttpToxic) : Int :=
  1024

/-- The method `ModifyResponse`. The `range` loop visits the entries of
`t.ResponseHeaders` in the order of the list `entries`; Go leaves that order
unspecified, and every order is the list of some `t`. -/
def HttpToxic.ModifyResponse (t : HttpToxic) (resp : Response) : Response :=
  let resp := t.ResponseHeaders.entries.foldl
    (fun (resp : Response) kv => { resp with Header := Header.Set resp.Header kv.1 kv.2 }) resp
  let resp := { resp with StatusCode := t.StatusCode }
  let resp := { resp with Body := GoString.bytes t.ResponseBody }
  { resp with ContentLength := (GoString.len t.ResponseBody : Int) }

/-! ## The link and the loop -/

/-- Modelled from the spec: the chunk type (`StreamChunk`, declared in another
file of the package), one unit of stream data, an owned byte sequence. -/
structure StreamChunk where
  Data : List Nat
deriving DecidableEq, Repr

/-- Modelled from the spec: the link (`ToxicStub`, declared in another file of
the package): the channels `Input` and `Output` (ordered, chunk-carrying; `none`
is the nil chunk), the cancellation signal `Interrupt` (the number of signals
ready to be received) and the number of invocations of `Close`. -/
structure ToxicStub where
  Input : List (Option StreamChunk)
  Output : List (Option StreamChunk)
  Interrupt : Nat
  Closed : Nat
deriving DecidableEq, Repr

/-- Modelled from the spec: the method `ToxicStub.Close`, which signals the
shutdown of this side; the model counts its invocations. -/
def ToxicStub.Close (stub : ToxicStub) : ToxicStub :=
  { stub with Closed := stub.Closed + 1 }

/-- The two cases of the `select` statement of `Pipe`. -/
inductive SelectCase where
  | Interrupt
  | Input
deriving DecidableEq, Repr

/-- A case of the `select` can proceed when a value is ready on its channel.
The `select` of Go blocks while no case can proceed and chooses one of the
cases that can, in no fixed order, when several can. -/
def canProceed (stub : ToxicStub) : SelectCase → Bool
  | SelectCase.Interrupt => decide (0 < stub.Interrupt)
  | SelectCase.Input => !stub.Input.isEmpty

/-- How one iteration of the loop of `Pipe` ends: the loop goes on, or `Pipe`
returns. -/
inductive Iteration where
  | Continue (stub : ToxicStub)
  | Return (stub : ToxicStub)
deriving DecidableEq, Repr

/-- One iteration of the loop of `Pipe`, the `select` taking the case `pick`;
`none` when that case cannot proceed. -/
def HttpToxic.PipeIteration (net : NetHttp) (t : HttpToxic) (pick : SelectCase)
    (stub : ToxicStub) : Option Iteration :=
  match pick with
  | SelectCase.Interrupt =>
    if 0 < stub.Interrupt then
      some (Iteration.Return { stub with Interrupt := stub.Interrupt - 1 })
    else none
  | SelectCase.Input =>
    match stub.Input with
    | [] => none
    | none :: input =>
      some (Iteration.Return (ToxicStub.Close { stub with Input := input }))
    | some c :: input =>
      let c :=
        match net.ReadResponse c.Data with
        | Except.ok resp =>
          let resp := t.ModifyResponse resp
          let modifiedBuffer := net.Write resp
          { c with Data := modifiedBuffer }
        | Except.error _ => c
      some (Iteration.Continue { stub with Input := input, Output := stub.Output ++ [some c] })

/-- The state of a run of `Pipe` after the choices given to its `select`. -/
inductive PipeRun where
  | Returned (stub : ToxicStub)
  | Waiting (stub : ToxicStub)
  | Refused
deriving DecidableEq, Repr

/-- The method `Pipe`, run on the choices `picks` of its `select`, one for each
iteration: `Returned` when `Pipe` has returned, `Waiting` when the choices are
used up with the loop at its `select`, `Refused` when a choice names a case
that cannot proceed. -/
def HttpToxic.Pipe (net : NetHttp) (t : HttpToxic) : List SelectCase → ToxicStub → PipeRun
  | [], stub => PipeRun.Waiting stub
  | pick :: picks, stub =>
    match t.PipeIteration net pick stub with
    | none => PipeRun.Refused
    | some (Iteration.Return stub) => PipeRun.Returned stub
    | some (Iteration.Continue stub) => HttpToxic.Pipe net t picks stub

/-! ## Instances for the examples -/

/-- A response for the examples: `HTTP/1.1 200 OK` with one header and the
body `hi`. -/
def sampleResponse : Response :=
  { Status := "200 OK".toList, StatusCode := 200, Proto := "HTTP/1.1".toList,
    ProtoMajor := 1, ProtoMinor := 1,
    Header := ⟨[("Content-Type".toList, ["text/plain".toList])]⟩,
    Body := [104, 105], ContentLength := 2, TransferEncoding := [],
    Close := false, Uncompressed := false, Trailer := ⟨[]⟩ }

/-- A stand-in for `net/http` in the examples: a chunk parses when its first
byte is `H`, to `sampleResponse`; a response is written as its status code
modulo 256 followed by its body. -/
def sampleNet : NetHttp :=
  { ReadResponse := fun data =>
      match data with
      | 72 :: _ => Except.ok sampleResponse
      | _ => Except.error "malformed HTTP response"
    Write := fun resp => (resp.StatusCode % 256).toNat :: resp.Body }

/-- A toxic whose configured headers `a` and `A` are two keys of the map with
one canonical form. -/
def clashToxic : HttpToxic :=
  { StatusCode := 503, ResponseHeaders := ⟨[("a".toList, "1".toList), ("A".toList, "2".toList)]⟩,
    ResponseBody := "down".toList }

/-- A toxic for the examples. -/
def sampleToxic : HttpToxic :=
  { StatusCode := 503, ResponseHeaders := ⟨[("x-toxic".toList, "1".toList)]⟩,
    ResponseBody := "down".toList }

/-! ## The words of the specification -/

/-- The function `strings.Join` for a separator of one character. -/
def Join (sep : Char) : List GoString → GoString
  | [] => []
  | [seg] => seg
  | seg :: segs => seg ++ sep :: Join sep segs

/-- The text of a segment before its first `:`. -/
def beforeColon (seg : GoString) : GoString :=
  seg.takeWhile (fun c => c != ':')

/-- The text of a segment after its first `:`. -/
def afterColon (seg : GoString) : GoString :=
  (seg.dropWhile (fun c => c != ':')).tail

/-- What `Pipe` forwards for the chunk `c`: the chunk with the rewritten
response as its payload when its bytes parse, the chunk itself otherwise. -/
def forwarded (net : NetHttp) (t : HttpToxic) (c : StreamChunk) : StreamChunk :=
  match net.ReadResponse c.Data with
  | Except.ok resp => { Data := net.Write (t.ModifyResponse resp) }
  | Except.error _ => c

/-- The four outcomes of one iteration of the loop of `Pipe`. -/
inductive Outcome where
  | ForwardModified
  | ForwardOriginal
  | TerminateNil
  | TerminateInterrupt
deriving DecidableEq, Repr

/-- The iteration of `Pipe` that takes the case `pick` on the link `stub` and
ends as `it` performs the outcome `o`. -/
def performs (net : NetHttp) (t : HttpToxic) (pick : SelectCase) (stub : ToxicStub)
    (it : Iteration) : Outcome → Prop
  | Outcome.ForwardModified =>
    ∃ c input resp, pick = SelectCase.Input ∧ stub.Input = some c :: input
      ∧ net.ReadResponse c.Data = Except.ok resp
      ∧ it = Iteration.Continue
          { stub with
            Input := input
            Output := stub.Output ++ [some { Data := net.Write (t.ModifyResponse resp) }] }
  | Outcome.ForwardOriginal =>
    ∃ c input e, pick = SelectCase.Input ∧ stub.Input = some c :: input
      ∧ net.ReadResponse c.Data = Except.error e
      ∧ it = Iteration.Continue { stub with Input := input, Output := stub.Output ++ [some c] }
  | Outcome.TerminateNil =>
    ∃ input, pick = SelectCase.Input ∧ stub.Input = none :: input
      ∧ it = Iteration.Return { stub with Input := input, Closed := stub.Closed + 1 }
  | Outcome.TerminateInterrupt =>
    pick = SelectCase.Interrupt ∧ 0 < stub.Interrupt
      ∧ it = Iteration.Return { stub with Interrupt := stub.Interrupt - 1 }

/-- The string `s` has no leading and no trailing white space: neither its
first nor its last character is a space. -/
def noOuterSpace (s : GoString) : Prop :=
  s.head?.map IsSpace ≠ some true ∧ s.getLast?.map IsSpace ≠ some true

instance noOuterSpace.decidable (s : GoString) : Decidable (noOuterSpace s) :=
  inferInstanceAs
    (Decidable (s.head?.map IsSpace ≠ some true ∧ s.getLast?.map IsSpace ≠ some true))

/-- The entry `key:value` of the header-list format. -/
def headerListEntry (kv : GoString × GoString) : GoString :=
  kv.1 ++ ':' :: kv.2


/-! ## A model of `http.ReadResponse`

The functions of `net/http` and `net/textproto` behind `http.ReadResponse(r, nil)`,
written from their behaviour in Go 1.22 on a reader that holds the bytes of one
chunk. `ReadResponse` reads the status line and the header block and prepares
the body reader; it does not read the body.

The model gives `some` result, the response or the error of Go, or `none` on a
head that it leaves out: a head with a line that is not valid UTF-8 (the
strings of the response could not be held as code points), a header line with
an empty key, an empty `Content-Length`, a `Content-Length` that is no number
on a chunked response or on a response whose status allows no body, and a
`Trailer` header of a chunked response that names none but keys that a trailer
cannot hold. -/

/-- The decoder of UTF-8, one byte at a time: `need` more continuation bytes
are due for the code point gathered in `acc`, the next of them between `lo` and
`hi` (which keeps out the overlong forms, the surrogates and the code points
above `U+10FFFF`). -/
def utf8DecodeLoop : Nat → Nat → Nat → Nat → List Nat → Option GoString
  | need, _, _, _, [] => if need = 0 then some [] else none
  | 0, _, _, _, b :: bs =>
    if b < 0x80 then (utf8DecodeLoop 0 0 0 0 bs).map (fun s => Char.ofNat b :: s)
    else if 0xC2 ≤ b && b ≤ 0xDF then utf8DecodeLoop 1 (b - 0xC0) 0x80 0xBF bs
    else if b = 0xE0 then utf8DecodeLoop 2 0 0xA0 0xBF bs
    else if b = 0xED then utf8DecodeLoop 2 0xD 0x80 0x9F bs
    else if 0xE1 ≤ b && b ≤ 0xEF then utf8DecodeLoop 2 (b - 0xE0) 0x80 0xBF bs
    else if b = 0xF0 then utf8DecodeLoop 3 0 0x90 0xBF bs
    else if 0xF1 ≤ b && b ≤ 0xF3 then utf8DecodeLoop 3 (b - 0xF0) 0x80 0xBF bs
    else if b = 0xF4 then utf8DecodeLoop 3 4 0x80 0x8F bs
    else none
  | need + 1, acc, lo, hi, b :: bs =>
    if lo ≤ b && b ≤ hi then
      if need = 0 then
        (utf8DecodeLoop 0 0 0 0 bs).map (fun s => Char.ofNat (acc * 0x40 + (b - 0x80)) :: s)
      else utf8DecodeLoop need (acc * 0x40 + (b - 0x80)) 0x80 0xBF bs
    else none

/-- The string whose bytes are `bs`: `string(bs)` for bytes that are valid
UTF-8, `none` for other bytes. -/
def utf8Decode (bs : List Nat) : Option GoString :=
  utf8DecodeLoop 0 0 0 0 bs

/-- The line without the `\r` that ends it, as `bufio.Reader.ReadLine` drops
`\r\n`. -/
def dropCR (line : List Nat) : List Nat :=
  if line.getLast? = some 13 then line.dropLast else line

/-- The lines of the head: the lines read (each up to its `\n`, without the
line end) before the first empty line, and the bytes after that empty line;
`none` when the bytes end before an empty line, where the reader reports the
end of its input. `cur` holds the bytes of the current line, last first. -/
def readHeadLines : List Nat → List Nat → Option (List (List Nat) × List Nat)
  | _, [] => none
  | cur, b :: bs =>
    if b = 10 then
      if dropCR cur.reverse = [] then some ([], bs)
      else match readHeadLines [] bs with
        | none => none
        | some (lines, rest) => some (dropCR cur.reverse :: lines, rest)
    else readHeadLines (b :: cur) bs

/-- The function `strconv.Atoi`: an optional sign and decimal digits, within
the range of `int`. -/
def Atoi (s : GoString) : Option Int :=
  let digits := match s with
    | '-' :: ds => ds
    | '+' :: ds => ds
    | ds => ds
  if digits = [] || !digits.all Char.isDigit then none
  else
    let n : Nat := digits.foldl (fun n c => n * 10 + (c.toNat - 48)) 0
    match s with
    | '-' :: _ => if n ≤ 2 ^ 63 then some (-(n : Int)) else none
    | _ => if n < 2 ^ 63 then some (n : Int) else none

/-- The function `strconv.ParseUint(s, 10, 63)`: decimal digits only, below
`2 ^ 63`. -/
def ParseUint63 (s : GoString) : Option Nat :=
  if s = [] || !s.all Char.isDigit then none
  else
    let n : Nat := s.foldl (fun n c => n * 10 + (c.toNat - 48)) 0
    if n < 2 ^ 63 then some n else none

/-- The function `http.ParseHTTPVersion`. -/
def ParseHTTPVersion (vers : GoString) : Option (Int × Int) :=
  match vers with
  | ['H', 'T', 'T', 'P', '/', maj, '.', min] =>
    if maj.isDigit && min.isDigit then some ((maj.toNat - 48 : Nat), (min.toNat - 48 : Nat))
    else none
  | _ => none

/-- The space and the tab, which `textproto` trims from a line. -/
def isSpTab (c : Char) : Bool :=
  c = ' ' || c = '\t'

/-- The function `trim` of `net/textproto`: without leading and trailing
spaces and tabs. -/
def trimSpTab (s : GoString) : GoString :=
  (s.dropWhile isSpTab).rdropWhile isSpTab

/-- The ASCII white space of `textproto.TrimString`. -/
def isASCIISpace (c : Char) : Bool :=
  c = ' ' || c = '\t' || c = '\n' || c = '\r'

/-- The function `textproto.TrimString`. -/
def TrimString (s : GoString) : GoString :=
  (s.dropWhile isASCIISpace).rdropWhile isASCIISpace

/-- The function `validHeaderValueByte` of `net/textproto`, on ASCII: the tab
and the characters from the space on, without `DEL`. -/
def validHeaderValueByte (c : Char) : Bool :=
  c = '\t' || (0x20 ≤ c.toNat && c.toNat ≠ 0x7F)

/-- The lower case of an ASCII letter. -/
def lowerASCII (c : Char) : Char :=
  if 'A' ≤ c && c ≤ 'Z' then Char.ofNat (c.toNat + 32) else c

/-- Equality of ASCII strings under case folding (`ascii.EqualFold`). -/
def EqualFold (s t : GoString) : Bool :=
  s.map lowerASCII = t.map lowerASCII

/-- The function `httpguts.HeaderValuesContainsToken` for a lower-case
`token`: one of the comma-separated elements of one of the values is the token,
in any case. -/
def HeaderValuesContainsToken (values : List GoString) (token : GoString) : Bool :=
  values.any fun v =>
    (Split v ',').any fun elem =>
      let elem := trimSpTab elem
      elem.all (fun c => decide (c.toNat < 0x80)) && elem.map lowerASCII = token

/-- The statement `delete(m, key)`. -/
def GoMap.delete {V : Type} (m : GoMap V) (key : GoString) : GoMap V :=
  ⟨m.entries.filter (fun kv => decide (kv.1 ≠ key))⟩

/-- The statement `m[key] = append(m[key], value)`. -/
def GoMap.append {V : Type} (m : GoMap (List V)) (key : GoString) (value : V) : GoMap (List V) :=
  GoMap.set m key ((GoMap.get m key).getD [] ++ [value])

/-- The key of a header line, not empty, as `canonicalMIMEHeaderKey` of the
reader returns it: `none` for a key with a byte that is neither a token byte
nor a space, the key as it is when it has a space, its canonical form
otherwise. -/
def readerHeaderKey (k : GoString) : Option GoString :=
  if !k.all (fun c => validHeaderFieldByte c || c = ' ') then none
  else if k.any (fun c => c = ' ') then some k
  else some (canonicalLoop true k)

/-- The logical header lines of `readContinuedLineSlice`: each line trimmed,
and a line that starts with a space or a tab joined to the line before it
after one space. `none` when the first line starts with a space or a tab, or
when a line that starts a header has no colon. -/
def continuedLines : Option GoString → List GoString → Option (List GoString)
  | none, [] => some []
  | some cur, [] => some [cur]
  | none, line :: lines =>
    if (line.head?.map isSpTab) = some true then none
    else if ':' ∉ line then none
    else continuedLines (some (trimSpTab line)) lines
  | some cur, line :: lines =>
    if (line.head?.map isSpTab) = some true then
      continuedLines (some (cur ++ ' ' :: trimSpTab line)) lines
    else if ':' ∉ line then none
    else match continuedLines (some (trimSpTab line)) lines with
      | none => none
      | some rest => some (cur :: rest)

/-- The loop of `ReadMIMEHeader` over the logical lines: the key ends at the
first colon, the value is the rest without its leading spaces and tabs. A line
with an empty key is left out of the model. -/
def readMIMEHeaderLoop (m : Header) : List GoString → Option (Except GoError Header)
  | [] => some (Except.ok m)
  | kv :: kvs =>
    match cut ':' kv with
    | none => some (Except.error "malformed MIME header line")
    | some (k, v) =>
      if k = [] then none
      else match readerHeaderKey k with
        | none => some (Except.error "malformed MIME header line")
        | some key =>
          if !v.all validHeaderValueByte then some (Except.error "malformed MIME header line")
          else readMIMEHeaderLoop (GoMap.append m key (v.dropWhile isSpTab)) kvs

/-- The method `ReadMIMEHeader` on the physical lines of the header block. -/
def ReadMIMEHeader (lines : List GoString) : Option (Except GoError Header) :=
  match continuedLines none lines with
  | none => some (Except.error "malformed MIME header line")
  | some kvs => readMIMEHeaderLoop GoMap.empty kvs

/-- The function `fixPragmaCacheControl`. -/
def fixPragmaCacheControl (h : Header) : Header :=
  match GoMap.get h "Pragma".toList with
  | some (hp :: _) =>
    if hp = "no-cache".toList && (GoMap.get h "Cache-Control".toList).isNone then
      GoMap.set h "Cache-Control".toList ["no-cache".toList]
    else h
  | _ => h

/-- The function `bodyAllowedForStatus`. -/
def bodyAllowedForStatus (status : Int) : Bool :=
  if 100 ≤ status && status ≤ 199 then false
  else if status = 204 then false
  else if status = 304 then false
  else true

/-- The function `chunked`: the first transfer encoding is `chunked`. -/
def chunked (te : List GoString) : Bool :=
  te.head? = some "chunked".toList

/-- The value of a hexadecimal digit. -/
def hexDigit (b : Nat) : Option Nat :=
  if 48 ≤ b && b ≤ 57 then some (b - 48)
  else if 97 ≤ b && b ≤ 102 then some (b - 87)
  else if 65 ≤ b && b ≤ 70 then some (b - 55)
  else none

/-- The function `parseHexUint` of the chunked reader: one to sixteen
hexadecimal digits. -/
def parseHexUint (bs : List Nat) : Option Nat :=
  if bs = [] || 16 < bs.length then none
  else bs.foldl (fun acc b =>
    match acc, hexDigit b with
    | some n, some d => some (n * 16 + d)
    | _, _ => none) (some 0)

/-- The bytes before the first `\n` and the bytes after it. -/
def readSlice : List Nat → Option (List Nat × List Nat)
  | [] => none
  | b :: bs =>
    if b = 10 then some ([], bs)
    else match readSlice bs with
      | none => none
      | some (line, rest) => some (b :: line, rest)

/-- The bytes that the chunked reader yields from `rest` before it ends or
fails: for each chunk, the line of its size in hexadecimal (trailing white
space and a chunk extension after `;` left out), its bytes and `\r\n`; the
chunk of size zero ends the body. -/
def chunkedBody : Nat → List Nat → List Nat
  | 0, _ => []
  | fuel + 1, rest =>
    match readSlice rest with
    | none => []
    | some (line, after) =>
      let line := line.rdropWhile (fun b => b = 32 || b = 9 || b = 13 || b = 10)
      match parseHexUint (line.takeWhile (fun b => decide (b ≠ 59))) with
      | none => []
      | some 0 => []
      | some n =>
        if (after.take n).length < n then after.take n
        else match after.drop n with
          | 13 :: 10 :: more => after.take n ++ chunkedBody fuel more
          | _ => after.take n

/-- The status line of a response, as `ReadResponse` parses it: the protocol,
the status, the status code and the version. -/
def parseStatusLine (line : GoString) :
    Except GoError (GoString × GoString × Int × Int × Int) :=
  match cut ' ' line with
  | none => Except.error "malformed HTTP response"
  | some (proto, status) =>
    let status := status.dropWhile (fun c => c = ' ')
    let statusCode := status.takeWhile (fun c => c != ' ')
    if GoString.len statusCode ≠ 3 then Except.error "malformed HTTP status code"
    else match Atoi statusCode with
      | none => Except.error "malformed HTTP status code"
      | some code =>
        if code < 0 then Except.error "malformed HTTP status code"
        else match ParseHTTPVersion proto with
          | none => Except.error "malformed HTTP version"
          | some (major, minor) => Except.ok (proto, status, code, major, minor)

/-- The function `shouldClose` for a response. -/
def shouldClose (major minor : Int) (header : Header) : Bool :=
  if major < 1 then true
  else
    let conv := (GoMap.get header "Connection".toList).getD []
    let hasClose := HeaderValuesContainsToken conv "close".toList
    if major = 1 && minor = 0 then
      hasClose || !HeaderValuesContainsToken conv "keep-alive".toList
    else hasClose

/-- The function `foreachHeaderElement`: the elements of a header value, between
commas, trimmed and not empty. -/
def headerElements (v : GoString) : List GoString :=
  if TrimString v = [] then []
  else if ',' ∉ TrimString v then [TrimString v]
  else ((Split (TrimString v) ',').map TrimString).filter (fun f => decide (f ≠ []))

/-- A key that a trailer cannot hold: `Transfer-Encoding`, `Trailer` or
`Content-Length`. -/
def badTrailerKey (key : GoString) : Bool :=
  key = "Transfer-Encoding".toList || key = "Trailer".toList || key = "Content-Length".toList

/-- The keys that the `Trailer` header of a chunked message names, in their
canonical form, as the loop of `fixTrailer` meets them. -/
def trailerKeys (vv : List GoString) : List GoString :=
  (vv.flatMap headerElements).map CanonicalMIMEHeaderKey

/-- The trailer that `fixTrailer` makes of the keys: a nil value under each
key. -/
def trailerOf (keys : List GoString) : Header :=
  keys.foldl (fun (trailer : Header) key => GoMap.set trailer key []) GoMap.empty

/-- The function `readTransfer` for a response read without a request, up to
the body reader: `resp` has its status line and its header, and gets its
content length, transfer encoding, close flag and trailer from the header.
`none` for an empty `Content-Length`, for a `Content-Length` that is no number
on a chunked response or on a response whose status allows no body, and for a
`Trailer` header that names none but keys that a trailer cannot hold, all left
out of the model. -/
def readTransferHead (resp : Response) : Option (Except GoError Response) :=
  let close := shouldClose resp.ProtoMajor resp.ProtoMinor resp.Header
  -- `shouldClose` removes the `Connection` header of a response above HTTP/1.0 that has `close`
  let header :=
    if 1 ≤ resp.ProtoMajor && !(resp.ProtoMajor = 1 && resp.ProtoMinor = 0) && close then
      GoMap.delete resp.Header "Connection".toList
    else resp.Header
  let atLeast11 :=
    if resp.ProtoMajor = 0 && resp.ProtoMinor = 0 then true
    else decide (1 < resp.ProtoMajor) || (resp.ProtoMajor = 1 && decide (1 ≤ resp.ProtoMinor))
  -- `parseTransferEncoding`
  let te : Except GoError (Bool × Header) :=
    match GoMap.get header "Transfer-Encoding".toList with
    | none => Except.ok (false, header)
    | some raw =>
      let header := GoMap.delete header "Transfer-Encoding".toList
      if !atLeast11 then Except.ok (false, header)
      else match raw with
        | [enc] =>
          if EqualFold enc "chunked".toList then Except.ok (true, header)
          else Except.error "unsupported transfer encoding"
        | _ => Except.error "too many transfer encodings"
  match te with
  | Except.error e => some (Except.error e)
  | Except.ok (isChunked, header) =>
    -- `fixLength`
    let contentLens := (GoMap.get header "Content-Length".toList).getD []
    let first := TrimString (contentLens.headD [])
    if contentLens.tail.any (fun ct => decide (TrimString ct ≠ first)) then
      some (Except.error "http: message cannot contain multiple Content-Length headers")
    else if contentLens ≠ [] && first = [] then none
    else
      let header :=
        if 1 < contentLens.length then GoMap.set header "Content-Length".toList [first]
        else header
      let parsed : Except GoError (Option Nat) :=
        if contentLens = [] then Except.ok none
        else match ParseUint63 first with
          | none => Except.error "bad Content-Length"
          | some n => Except.ok (some n)
      match parsed with
      | Except.error e =>
        -- the versions of Go differ on whether this error comes before the cases below
        if !bodyAllowedForStatus resp.StatusCode || isChunked then none
        else some (Except.error e)
      | Except.ok cl =>
        let noBody := !bodyAllowedForStatus resp.StatusCode
        let header :=
          if !noBody && isChunked then GoMap.delete header "Content-Length".toList else header
        let realLength : Int :=
          if noBody then 0
          else if isChunked then -1
          else match cl with
            | some n => (n : Int)
            | none => -1
        -- `fixTrailer`
        let trailerValues := if isChunked then GoMap.get header "Trailer".toList else none
        let header :=
          if trailerValues.isSome then GoMap.delete header "Trailer".toList else header
        let keys := trailerKeys (trailerValues.getD [])
        if keys.any badTrailerKey then
          -- `fixTrailer` returns its error with a trailer that is not empty
          if keys.all badTrailerKey then none else some (Except.error "bad trailer key")
        else
          some (Except.ok
            { resp with
              Header := header
              ContentLength := realLength
              TransferEncoding := if isChunked then ["chunked".toList] else []
              Close := close || (realLength = -1 && !isChunked && !noBody)
              Trailer := trailerOf keys })

/-- The body reader that `readTransfer` prepares, as the bytes that reading it
yields from `rest`, the bytes after the head: the chunks of a chunked body, at
most `ContentLength` bytes of a body with a length, all the bytes of a body
that ends with the connection, and nothing for a response without a body. -/
def transferBody (resp : Response) (rest : List Nat) : List Nat :=
  if chunked resp.TransferEncoding then
    if bodyAllowedForStatus resp.StatusCode then chunkedBody rest.length rest else []
  else if resp.ContentLength = 0 then []
  else if 0 < resp.ContentLength then rest.take resp.ContentLength.toNat
  else if resp.Close then rest
  else []

/-- The head of `http.ReadResponse(r, nil)`: the status line, the header block
and `readTransfer` up to the body reader, on the lines of the head. -/
def readResponseHead (lines : List (List Nat)) : Option (Except GoError Response) :=
  match lines.mapM utf8Decode with
  | none => none
  | some [] => some (Except.error "malformed HTTP response")
  | some (statusLine :: headerLines) =>
    match parseStatusLine statusLine with
    | Except.error e => some (Except.error e)
    | Except.ok (proto, status, code, major, minor) =>
      match ReadMIMEHeader headerLines with
      | none => none
      | some (Except.error e) => some (Except.error e)
      | some (Except.ok header) =>
        readTransferHead
          { Status := status, StatusCode := code, Proto := proto, ProtoMajor := major,
            ProtoMinor := minor, Header := fixPragmaCacheControl header, Body := [],
            ContentLength := 0, TransferEncoding := [], Close := false,
            Uncompressed := false, Trailer := GoMap.empty }

/-- The function `http.ReadResponse(r, nil)` on a reader that holds `data`: the
response of the head, with the body reader on the bytes after the head; `none`
on a head that the model leaves out. -/
def goReadResponse (data : List Nat) : Option (Except GoError Response) :=
  match readHeadLines [] data with
  | none => some (Except.error "unexpected EOF")
  | some (lines, rest) =>
    match readResponseHead lines with
    | none => none
    | some (Except.error e) => some (Except.error e)
    | some (Except.ok resp) => some (Except.ok { resp with Body := transferBody resp rest })

/-! ## A model of `Response.Write`

The method `(*http.Response).Write` of Go 1.22 on a buffer, for a response
without a request whose `Body` is not nil: the bytes that it writes, also when
it then returns an error. A chunked body is written as `Write` copies a body
held in memory, in one chunk; the parts of a body of 32 KiB and more are not
modelled. -/

/-- The table of `http.StatusText`. -/
def statusTexts : List (Int × String) :=
  [(100, "Continue"), (101, "Switching Protocols"), (102, "Processing"), (103, "Early Hints"),
   (200, "OK"), (201, "Created"), (202, "Accepted"), (203, "Non-Authoritative Information"),
   (204, "No Content"), (205, "Reset Content"), (206, "Partial Content"),
   (207, "Multi-Status"), (208, "Already Reported"), (226, "IM Used"),
   (300, "Multiple Choices"), (301, "Moved Permanently"), (302, "Found"), (303, "See Other"),
   (304, "Not Modified"), (305, "Use Proxy"), (307, "Temporary Redirect"),
   (308, "Permanent Redirect"),
   (400, "Bad Request"), (401, "Unauthorized"), (402, "Payment Required"), (403, "Forbidden"),
   (404, "Not Found"), (405, "Method Not Allowed"), (406, "Not Acceptable"),
   (407, "Proxy Authentication Required"), (408, "Request Timeout"), (409, "Conflict"),
   (410, "Gone"), (411, "Length Required"), (412, "Precondition Failed"),
   (413, "Request Entity Too Large"), (414, "Request URI Too Long"),
   (415, "Unsupported Media Type"), (416, "Requested Range Not Satisfiable"),
   (417, "Expectation Failed"), (418, "I\x27m a teapot"), (421, "Misdirected Request"),
   (422, "Unprocessable Entity"), (423, "Locked"), (424, "Failed Dependency"),
   (425, "Too Early"), (426, "Upgrade Required"), (428, "Precondition Required"),
   (429, "Too Many Requests"), (431, "Request Header Fields Too Large"),
   (451, "Unavailable For Legal Reasons"),
   (500, "Internal Server Error"), (501, "Not Implemented"), (502, "Bad Gateway"),
   (503, "Service Unavailable"), (504, "Gateway Timeout"),
   (505, "HTTP Version Not Supported"), (506, "Variant Also Negotiates"),
   (507, "Insufficient Storage"), (508, "Loop Detected"), (510, "Not Extended"),
   (511, "Network Authentication Required")]

/-- The function `http.StatusText`: the text of a known status code, the empty
string otherwise. -/
def StatusText (code : Int) : GoString :=
  match statusTexts.find? (fun e => decide (e.1 = code)) with
  | some e => e.2.toList
  | none => []

/-- The function `strconv.Itoa`. -/
def Itoa (n : Int) : GoString :=
  if n < 0 then '-' :: Nat.toDigits 10 n.natAbs else Nat.toDigits 10 n.toNat

/-- The verb `%03d` of `fmt`: the decimal digits, padded with zeros to three
characters, the sign included. -/
def format03d (n : Int) : GoString :=
  if n < 0 then
    '-' :: (List.replicate (2 - (Nat.toDigits 10 n.natAbs).length) '0'
      ++ Nat.toDigits 10 n.natAbs)
  else List.replicate (3 - (Nat.toDigits 10 n.toNat).length) '0' ++ Nat.toDigits 10 n.toNat

/-- The function `strings.TrimPrefix`. -/
def TrimPrefix (s pre : GoString) : GoString :=
  if pre.isPrefixOf s then s.drop pre.length else s

/-- The order of Go strings: `s < t`, byte by byte. -/
def stringLess : GoString → GoString → Bool
  | _, [] => false
  | [], _ :: _ => true
  | a :: s, b :: t => a < b || (a = b && stringLess s t)

/-- One step of the sort of the header keys. -/
def insertByKey (e : GoString × List GoString) :
    List (GoString × List GoString) → List (GoString × List GoString)
  | [] => [e]
  | x :: xs => if stringLess x.1 e.1 then x :: insertByKey e xs else e :: x :: xs

/-- The method `sortedKeyValues`: the entries of a header in the order of their
keys. -/
def sortedKeyValues (h : Header) : List (GoString × List GoString) :=
  h.entries.foldr insertByKey []

/-- The function `httpguts.ValidHeaderFieldName`. -/
def ValidHeaderFieldName (k : GoString) : Bool :=
  !k.isEmpty && k.all validHeaderFieldByte

/-- The method `Header.WriteSubset`: for each key in order, outside `exclude`
and valid as a field name, one line for each value, with the line breaks of the
value turned into spaces and the value trimmed. -/
def WriteSubset (h : Header) (exclude : List GoString) : GoString :=
  (sortedKeyValues h).flatMap fun kv =>
    if exclude.contains kv.1 || !ValidHeaderFieldName kv.1 then []
    else kv.2.flatMap fun v =>
      kv.1 ++ ": ".toList
        ++ TrimString (v.map fun c => if c = '\n' || c = '\r' then ' ' else c)
        ++ "\r\n".toList

/-- The function `isTokenBoundary`. -/
def isTokenBoundary (c : Char) : Bool :=
  c = ' ' || c = ',' || c = '\t'

/-- The loop of `hasToken` from one position on, `prev` the character before
it: the token stands here, in any case, between token boundaries. -/
def hasTokenFrom (token : GoString) : Option Char → GoString → Bool
  | _, [] => false
  | prev, c :: cs =>
    ((token.head?.any fun t0 => c = t0 || Char.ofNat (c.toNat ||| 0x20) = t0)
        && prev.all isTokenBoundary
        && ((c :: cs).drop token.length).head?.all isTokenBoundary
        && EqualFold ((c :: cs).take token.length) token)
      || hasTokenFrom token (some c) cs

/-- The function `hasToken` of `net/http`, for an ASCII token in lower case. -/
def hasToken (v token : GoString) : Bool :=
  if v.length < token.length || token.isEmpty then false
  else if v = token then true
  else hasTokenFrom token none v

/-- The chunks that the chunked writer emits for the pieces it is given: the
size in hexadecimal, the bytes, `\r\n`; nothing for an empty piece. -/
def writeChunks (pieces : List (List Nat)) : List Nat :=
  pieces.flatMap fun piece =>
    if piece.isEmpty then []
    else GoString.bytes (Nat.toDigits 16 piece.length ++ "\r\n".toList) ++ piece ++ [13, 10]

/-- The method `Response.Write`: the bytes written to the buffer. -/
def goWrite (r : Response) : List Nat :=
  -- status line
  let text :=
    if r.Status.isEmpty then
      if (StatusText r.StatusCode).isEmpty then "status code ".toList ++ Itoa r.StatusCode
      else StatusText r.StatusCode
    else TrimPrefix r.Status (Itoa r.StatusCode ++ [' '])
  let statusLine := "HTTP/".toList ++ Itoa r.ProtoMajor ++ '.' :: Itoa r.ProtoMinor
    ++ ' ' :: format03d r.StatusCode ++ ' ' :: text ++ "\r\n".toList
  -- the clone `r1`: a content length of zero is probed by reading one byte of the body
  let probed := r.ContentLength = 0 && !r.Body.isEmpty
  let contentLength1 : Int := if probed then -1 else r.ContentLength
  let atLeast11 := decide (1 < r.ProtoMajor) || (r.ProtoMajor = 1 && decide (1 ≤ r.ProtoMinor))
  let close1 := r.Close
    || (contentLength1 = -1 && atLeast11 && !chunked r.TransferEncoding && !r.Uncompressed)
  -- `newTransferWriter`
  let te := if atLeast11 then r.TransferEncoding else []
  let contentLength := if chunked te then -1 else contentLength1
  let trailer : Header := if chunked te then r.Trailer else GoMap.empty
  -- `writeHeader`
  let connection :=
    if close1 && !hasToken (((GoMap.get r.Header "Connection".toList).getD []).headD [])
        "close".toList then
      "Connection: close\r\n".toList
    else []
  let shouldSendContentLength := !chunked te
    && (decide (0 < contentLength) || (contentLength = 0 && te = ["identity".toList]))
  let framing :=
    if shouldSendContentLength then "Content-Length: ".toList ++ Itoa contentLength ++ "\r\n".toList
    else if chunked te then "Transfer-Encoding: chunked\r\n".toList
    else []
  let trailerKeys := (trailer.entries.map fun kv => CanonicalMIMEHeaderKey kv.1)
  if trailerKeys.any (fun k => k = "Transfer-Encoding".toList || k = "Trailer".toList
      || k = "Content-Length".toList) then
    GoString.bytes (statusLine ++ connection ++ framing)
  else
    let sortedKeys := (sortedKeyValues ⟨trailerKeys.map fun k => (k, [])⟩).map Prod.fst
    let trailerLine :=
      if trailerKeys.isEmpty then []
      else "Trailer: ".toList ++ Join ',' sortedKeys ++ "\r\n".toList
    -- rest of the header
    let header := WriteSubset r.Header
      ["Content-Length".toList, "Transfer-Encoding".toList, "Trailer".toList]
    let zeroLength :=
      if contentLength1 = 0 && !chunked r.TransferEncoding && !shouldSendContentLength
          && bodyAllowedForStatus r.StatusCode then
        "Content-Length: 0\r\n".toList
      else []
    let head := GoString.bytes
      (statusLine ++ connection ++ framing ++ trailerLine ++ header ++ zeroLength ++ "\r\n".toList)
    -- `writeBody`
    let body :=
      if chunked te then
        writeChunks (if probed then [r.Body.take 1, r.Body.drop 1] else [r.Body])
          ++ GoString.bytes ("0\r\n".toList ++ WriteSubset trailer [] ++ "\r\n".toList)
      else if contentLength = -1 then r.Body
      else r.Body.take contentLength.toNat
    head ++ body

/-- The functions of `net/http` as modelled above; on a head that the model of
`http.ReadResponse` leaves out, `ReadResponse` is the given function `other`,
about which nothing is assumed. -/
def goNet (other : List Nat → Except GoError Response) : NetHttp :=
  { ReadResponse := fun data => (goReadResponse data).getD (other data), Write := goWrite }

/-- The bytes of a chunk given as text. -/
def chunkOf (text : String) : StreamChunk :=
  { Data := GoString.bytes text.toList }


/-- The response that `http.ReadResponse` returns for the chunked response
`200 OK` with the body `hi`. -/
def chunkedResponse : Response :=
  { Status := "200 OK".toList, StatusCode := 200, Proto := "HTTP/1.1".toList,
    ProtoMajor := 1, ProtoMinor := 1, Header := ⟨[]⟩, Body := [104, 105],
    ContentLength := -1, TransferEncoding := ["chunked".toList], Close := false,
    Uncompressed := false, Trailer := ⟨[]⟩ }

/-- The response that `http.ReadResponse` returns for the head of a response
`200 OK` that announces ten bytes of body, followed by the five bytes `hello`. -/
def partialResponse : Response :=
  { Status := "200 OK".toList, StatusCode := 200, Proto := "HTTP/1.1".toList,
    ProtoMajor := 1, ProtoMinor := 1,
    Header := ⟨[("Content-Length".toList, ["10".toList])]⟩,
    Body := [104, 101, 108, 108, 111], ContentLength := 10, TransferEncoding := [],
    Close := false, Uncompressed := false, Trailer := ⟨[]⟩ }


/-! ## Lemmas on strings and maps -/

theorem utf8Encode_ne_nil (c : Char) : utf8Encode c ≠ [] := by
  unfold utf8Encode
  simp only
  split_ifs <;> simp

theorem len_eq_zero_iff (s : GoString) : GoString.len s = 0 ↔ s = [] := by
  cases s with
  | nil => simp [GoString.len, GoString.bytes]
  | cons c cs =>
    have h := utf8Encode_ne_nil c
    simp [GoString.len, GoString.bytes, h]

theorem cut_of_not_mem (sep : Char) (s : GoString) (h : sep ∉ s) : cut sep s = none := by
  induction s with
  | nil => rfl
  | cons c cs ih =>
    simp only [List.mem_cons, not_or] at h
    have hc : ¬ c = sep := fun e => h.1 e.symm
    simp [cut, hc, ih h.2]

theorem cut_append (sep : Char) (a b : GoString) (h : sep ∉ a) :
    cut sep (a ++ sep :: b) = some (a, b) := by
  induction a with
  | nil => simp [cut]
  | cons c cs ih =>
    simp only [List.mem_cons, not_or] at h
    have hc : ¬ c = sep := fun e => h.1 e.symm
    simp [cut, hc, ih h.2]

theorem cut_of_mem (s : GoString) (h : ':' ∈ s) :
    cut ':' s = some (beforeColon s, afterColon s) := by
  induction s with
  | nil => simp at h
  | cons c cs ih =>
    by_cases hc : c = ':'
    · subst hc
      simp [cut, beforeColon, afterColon]
    · have hmem : ':' ∈ cs := by
        rcases List.mem_cons.mp h with e | e
        · exact absurd e.symm hc
        · exact e
      have ih2 := ih hmem
      simp only [beforeColon, afterColon] at ih2
      simp [cut, hc, ih2, beforeColon, afterColon]

theorem count_Join (sep : Char) (segs : List GoString) (h : ∀ seg ∈ segs, sep ∉ seg) :
    Count (Join sep segs) sep = segs.length - 1 := by
  induction segs with
  | nil => simp [Join, Count]
  | cons a rest ih =>
    cases rest with
    | nil =>
      have ha : sep ∉ a := h a (by simp)
      simp [Join, Count, List.count_eq_zero_of_not_mem ha]
    | cons b rest2 =>
      have ha : sep ∉ a := h a (by simp)
      have ih2 := ih (fun seg hs => h seg (List.mem_cons_of_mem _ hs))
      simp only [Count] at ih2
      simp [Join, Count, List.count_append, List.count_eq_zero_of_not_mem ha,
        List.count_cons, ih2]

theorem genSplitLoop_Join (sep : Char) (segs : List GoString) (h : ∀ seg ∈ segs, sep ∉ seg)
    (hne : segs ≠ []) (n : Nat) (hn : segs.length - 1 ≤ n) :
    genSplitLoop sep n (Join sep segs) = segs := by
  induction segs generalizing n with
  | nil => exact absurd rfl hne
  | cons a rest ih =>
    have ha : sep ∉ a := h a (by simp)
    cases rest with
    | nil =>
      cases n with
      | zero => simp [Join, genSplitLoop]
      | succ m => simp [Join, genSplitLoop, cut_of_not_mem sep a ha]
    | cons b rest2 =>
      cases n with
      | zero => simp at hn
      | succ m =>
        have ih2 := ih (fun seg hs => h seg (List.mem_cons_of_mem _ hs)) (by simp) m
          (by simp at hn ⊢; omega)
        simp [Join, genSplitLoop, cut_append sep a _ ha]
        simpa [Join] using ih2

theorem Split_Join (sep : Char) (segs : List GoString) (h : ∀ seg ∈ segs, sep ∉ seg)
    (hne : segs ≠ []) : Split (Join sep segs) sep = segs := by
  unfold Split SplitN
  simp only [count_Join sep segs h]
  simpa using genSplitLoop_Join sep segs h hne (segs.length - 1) (le_refl _)

theorem cut_some (sep : Char) (s before after : GoString)
    (h : cut sep s = some (before, after)) : s = before ++ sep :: after ∧ sep ∉ before := by
  induction s generalizing before with
  | nil => simp [cut] at h
  | cons c cs ih =>
    by_cases hc : c = sep
    · subst hc
      simp [cut] at h
      obtain ⟨h1, h2⟩ := h
      subst h1 h2
      simp
    · simp only [cut, hc, if_false] at h
      cases hcs : cut sep cs with
      | none => simp [hcs] at h
      | some ba =>
        obtain ⟨b, a⟩ := ba
        simp only [hcs, Option.some.injEq, Prod.mk.injEq] at h
        obtain ⟨h1, h2⟩ := h
        subst h1 h2
        obtain ⟨e, hb⟩ := ih b hcs
        refine ⟨by rw [e]; simp, ?_⟩
        simp only [List.mem_cons, not_or]
        exact ⟨fun e2 => hc e2.symm, hb⟩

theorem not_mem_of_cut_none (sep : Char) (s : GoString) (h : cut sep s = none) : sep ∉ s := by
  induction s with
  | nil => simp
  | cons c cs ih =>
    by_cases hc : c = sep
    · simp [cut, hc] at h
    · simp only [cut, hc, if_false] at h
      cases hcs : cut sep cs with
      | none =>
        simp only [List.mem_cons, not_or]
        exact ⟨fun e => hc e.symm, ih hcs⟩
      | some ba => simp [hcs] at h

theorem genSplitLoop_ne_nil (sep : Char) (n : Nat) (s : GoString) : genSplitLoop sep n s ≠ [] := by
  cases n with
  | zero => simp [genSplitLoop]
  | succ m =>
    unfold genSplitLoop
    cases cut sep s with
    | none => simp
    | some ba => simp

theorem Join_cons (sep : Char) (a : GoString) (segs : List GoString) (h : segs ≠ []) :
    Join sep (a :: segs) = a ++ sep :: Join sep segs := by
  cases segs with
  | nil => exact absurd rfl h
  | cons b rest => rfl

theorem genSplitLoop_spec (sep : Char) (n : Nat) (s : GoString) (hn : Count s sep ≤ n) :
    (∀ seg ∈ genSplitLoop sep n s, sep ∉ seg) ∧ Join sep (genSplitLoop sep n s) = s := by
  induction n generalizing s with
  | zero =>
    have h0 : s.count sep = 0 := by simpa [Count] using hn
    have hs : sep ∉ s := List.count_eq_zero.mp h0
    simp [genSplitLoop, Join, hs]
  | succ m ih =>
    unfold genSplitLoop
    cases hc : cut sep s with
    | none =>
      have hs : sep ∉ s := not_mem_of_cut_none sep s hc
      simp [Join, hs]
    | some ba =>
      obtain ⟨b, a⟩ := ba
      obtain ⟨e, hb⟩ := cut_some sep s b a hc
      have hcount : Count a sep ≤ m := by
        subst e
        simp only [Count, List.count_append, List.count_cons, List.count_eq_zero_of_not_mem hb]
          at hn ⊢
        simp at hn
        omega
      obtain ⟨h1, h2⟩ := ih a hcount
      constructor
      · intro seg hseg
        rcases List.mem_cons.mp hseg with e2 | e2
        · rw [e2]; exact hb
        · exact h1 seg e2
      · simp only
        rw [Join_cons sep b _ (genSplitLoop_ne_nil sep m a), h2, e]

/-- Every string is the join of its `;`-delimited segments, which contain no
`;`. -/
theorem Split_spec (sep : Char) (s : GoString) :
    (∀ seg ∈ Split s sep, sep ∉ seg) ∧ Join sep (Split s sep) = s := by
  unfold Split SplitN
  simpa using genSplitLoop_spec sep (Count s sep) s (le_refl _)

theorem parseHeadersPair_eq (headers : GoMap GoString) (pair : GoString) :
    parseHeadersPair headers pair =
      match cut ':' pair with
      | none => headers
      | some (key, value) => GoMap.set headers (TrimSpace key) (TrimSpace value) := by
  unfold parseHeadersPair SplitN
  simp only [genSplitLoop]
  cases hc : cut ':' pair with
  | none => simp [genSplitLoop, hc]
  | some kv =>
    obtain ⟨key, value⟩ := kv
    simp [genSplitLoop, hc]

theorem parseHeadersPair_no_colon (headers : GoMap GoString) (pair : GoString)
    (h : ':' ∉ pair) : parseHeadersPair headers pair = headers := by
  rw [parseHeadersPair_eq, cut_of_not_mem ':' pair h]

theorem parseHeadersPair_colon (headers : GoMap GoString) (pair : GoString)
    (h : ':' ∈ pair) :
    parseHeadersPair headers pair
      = GoMap.set headers (TrimSpace (beforeColon pair)) (TrimSpace (afterColon pair)) := by
  rw [parseHeadersPair_eq, cut_of_mem pair h]

theorem Join_eq_nil (sep : Char) (segs : List GoString) (h : Join sep segs = []) :
    segs = [] ∨ segs = [[]] := by
  cases segs with
  | nil => exact Or.inl rfl
  | cons a rest =>
    cases rest with
    | nil => simp [Join] at h; exact Or.inr (by simp [h])
    | cons b rest2 => simp [Join] at h

/-- On a string joined from segments without `;`, `parseHeaders` is the loop
body folded over the segments. -/
theorem parseHeaders_Join (segs : List GoString) (h : ∀ seg ∈ segs, ';' ∉ seg) :
    parseHeaders (Join ';' segs) = segs.foldl parseHeadersPair GoMap.empty := by
  unfold parseHeaders
  simp only [len_eq_zero_iff]
  by_cases hj : Join ';' segs = []
  · rw [if_pos hj]
    rcases Join_eq_nil ';' segs hj with e | e
    · simp [e]
    · subst e
      simp [parseHeadersPair_no_colon]
  · rw [if_neg hj]
    have hne : segs ≠ [] := by
      intro e
      exact hj (by simp [e, Join])
    rw [Split_Join ';' segs h hne]

theorem foldl_parseHeadersPair_filter (segs : List GoString) (m : GoMap GoString) :
    (segs.filter (fun seg => decide (':' ∈ seg))).foldl parseHeadersPair m
      = segs.foldl parseHeadersPair m := by
  induction segs generalizing m with
  | nil => rfl
  | cons a rest ih =>
    by_cases ha : ':' ∈ a
    · simp [List.filter_cons, ha, ih]
    · simp [List.filter_cons, ha, ih, parseHeadersPair_no_colon m a ha]

theorem getEntries_setEntries_same {V : Type} (m : List (GoString × V)) (k : GoString) (v : V) :
    getEntries (setEntries m k v) k = some v := by
  induction m with
  | nil => simp [setEntries, getEntries]
  | cons e rest ih =>
    obtain ⟨k0, v0⟩ := e
    by_cases hk : k0 = k
    · simp [setEntries, getEntries, hk]
    · simp [setEntries, getEntries, hk, ih]

theorem getEntries_setEntries_ne {V : Type} (m : List (GoString × V)) (k k2 : GoString) (v : V)
    (hne : k ≠ k2) : getEntries (setEntries m k v) k2 = getEntries m k2 := by
  induction m with
  | nil => simp [setEntries, getEntries, hne]
  | cons e rest ih =>
    obtain ⟨k0, v0⟩ := e
    by_cases hk : k0 = k
    · subst hk
      simp [setEntries, getEntries, hne]
    · by_cases hk2 : k0 = k2
      · subst hk2
        simp [setEntries, getEntries, hk]
      · simp [setEntries, getEntries, hk, hk2, ih]

theorem get_set {V : Type} (m : GoMap V) (k k2 : GoString) (v : V) :
    GoMap.get (GoMap.set m k v) k2 = if k = k2 then some v else GoMap.get m k2 := by
  unfold GoMap.get GoMap.set
  by_cases h : k = k2
  · subst h
    simp [getEntries_setEntries_same]
  · simp [h, getEntries_setEntries_ne m.entries k k2 v h]

theorem foldl_parseHeadersPair_get (post : List GoString) (m : GoMap GoString) (k : GoString)
    (h : ∀ p ∈ post, ':' ∈ p → TrimSpace (beforeColon p) ≠ k) :
    GoMap.get (post.foldl parseHeadersPair m) k = GoMap.get m k := by
  induction post generalizing m with
  | nil => rfl
  | cons p rest ih =>
    rw [List.foldl_cons, ih _ (fun q hq => h q (List.mem_cons_of_mem _ hq))]
    by_cases hp : ':' ∈ p
    · rw [parseHeadersPair_colon m p hp, get_set, if_neg (h p (by simp) hp)]
    · rw [parseHeadersPair_no_colon m p hp]

/-! ## Lemmas on the rewrite and on the loop -/

theorem ModifyResponse_Header (t : HttpToxic) (resp : Response) :
    (t.ModifyResponse resp).Header
      = t.ResponseHeaders.entries.foldl (fun h kv => Header.Set h kv.1 kv.2) resp.Header := by
  unfold HttpToxic.ModifyResponse
  simp only
  generalize t.ResponseHeaders.entries = l
  induction l generalizing resp with
  | nil => rfl
  | cons e rest ih => simp only [List.foldl_cons]; rw [ih]

theorem Values_Set (h : Header) (key value name : GoString) :
    Header.Values (Header.Set h key value) name
      = if CanonicalMIMEHeaderKey key = CanonicalMIMEHeaderKey name then some [value]
        else Header.Values h name := by
  unfold Header.Values Header.Set
  rw [get_set]

theorem Values_foldl_Set (l : List (GoString × GoString)) (h : Header) (name value : GoString)
    (hmem : (name, value) ∈ l)
    (hagree : ∀ k v, (k, v) ∈ l →
      CanonicalMIMEHeaderKey k = CanonicalMIMEHeaderKey name → v = value) :
    Header.Values (l.foldl (fun h kv => Header.Set h kv.1 kv.2) h) name = some [value] := by
  induction l using List.reverseRecOn with
  | nil => simp at hmem
  | append_singleton rest e ih =>
    obtain ⟨k, v⟩ := e
    rw [List.foldl_append, List.foldl_cons, List.foldl_nil, Values_Set]
    by_cases hk : CanonicalMIMEHeaderKey k = CanonicalMIMEHeaderKey name
    · rw [if_pos hk, hagree k v (by simp) hk]
    · rw [if_neg hk]
      apply ih
      · rcases List.mem_append.mp hmem with hm | hm
        · exact hm
        · simp only [List.mem_singleton, Prod.mk.injEq] at hm
          exact absurd (by rw [hm.1]) hk
      · intro k2 v2 hm2 hc
        exact hagree k2 v2 (List.mem_append_left _ hm2) hc

theorem PipeIteration_chunk (net : NetHttp) (t : HttpToxic) (c : StreamChunk)
    (input out : List (Option StreamChunk)) (intr closed : Nat) :
    t.PipeIteration net SelectCase.Input
        { Input := some c :: input, Output := out, Interrupt := intr, Closed := closed }
      = some (Iteration.Continue
          { Input := input, Output := out ++ [some (forwarded net t c)], Interrupt := intr,
            Closed := closed }) := by
  unfold HttpToxic.PipeIteration forwarded
  cases hr : net.ReadResponse c.Data <;> simp [hr]

/-- Every run of `Pipe` on a link without a pending interrupt whose input is
the chunks `cs`, then the nil chunk, then `later`. -/
theorem Pipe_run (net : NetHttp) (t : HttpToxic) (cs : List StreamChunk)
    (later out : List (Option StreamChunk)) (closed : Nat) (picks : List SelectCase) :
    t.Pipe net picks
        { Input := cs.map some ++ none :: later, Output := out, Interrupt := 0, Closed := closed }
      = if (picks.take (cs.length + 1)).all (fun pick => decide (pick = SelectCase.Input)) then
          if picks.length ≤ cs.length then
            PipeRun.Waiting
              { Input := (cs.drop picks.length).map some ++ none :: later,
                Output := out ++ (cs.take picks.length).map (fun c => some (forwarded net t c)),
                Interrupt := 0, Closed := closed }
          else
            PipeRun.Returned
              { Input := later,
                Output := out ++ cs.map (fun c => some (forwarded net t c)),
                Interrupt := 0, Closed := closed + 1 }
        else PipeRun.Refused := by
  induction cs generalizing out picks with
  | nil =>
    cases picks with
    | nil => simp [HttpToxic.Pipe]
    | cons pick rest =>
      cases pick <;> simp [HttpToxic.Pipe, HttpToxic.PipeIteration, ToxicStub.Close]
  | cons c cs ih =>
    cases picks with
    | nil => simp [HttpToxic.Pipe]
    | cons pick rest =>
      cases pick with
      | Interrupt => simp [HttpToxic.Pipe, HttpToxic.PipeIteration]
      | Input =>
        simp only [HttpToxic.Pipe, List.map_cons, List.cons_append, PipeIteration_chunk]
        rw [ih]
        simp [List.take_succ_cons]

theorem foldl_Set_Response (l : List (GoString × GoString)) (resp : Response) :
    l.foldl (fun (resp : Response) kv =>
        { resp with Header := Header.Set resp.Header kv.1 kv.2 }) resp
      = { resp with Header := l.foldl (fun h kv => Header.Set h kv.1 kv.2) resp.Header } := by
  induction l generalizing resp with
  | nil => rfl
  | cons e rest ih => simp only [List.foldl_cons]; rw [ih]

/-- The response after `ModifyResponse`, field by field. -/
theorem ModifyResponse_eq (t : HttpToxic) (resp : Response) :
    t.ModifyResponse resp
      = { resp with
          Header := t.ResponseHeaders.entries.foldl (fun h kv => Header.Set h kv.1 kv.2)
            resp.Header
          StatusCode := t.StatusCode
          Body := GoString.bytes t.ResponseBody
          ContentLength := (GoString.len t.ResponseBody : Int) } := by
  unfold HttpToxic.ModifyResponse
  simp only [foldl_Set_Response]

theorem ModifyResponse_Body_irrelevant (t : HttpToxic) (resp : Response) (body : List Nat) :
    t.ModifyResponse { resp with Body := body } = t.ModifyResponse resp := by
  simp only [ModifyResponse_eq]

theorem get_foldl_Set_other (l : List (GoString × GoString)) (h : Header) (key : GoString)
    (hother : ∀ kv ∈ l, CanonicalMIMEHeaderKey kv.1 ≠ key) :
    GoMap.get (l.foldl (fun h kv => Header.Set h kv.1 kv.2) h) key = GoMap.get h key := by
  induction l generalizing h with
  | nil => rfl
  | cons e rest ih =>
    rw [List.foldl_cons, ih _ (fun kv hkv => hother kv (List.mem_cons_of_mem _ hkv))]
    unfold Header.Set
    rw [get_set, if_neg (hother e (by simp))]

theorem setEntries_of_getEntries {V : Type} (m : List (GoString × V)) (k : GoString) (v : V)
    (h : getEntries m k = some v) : setEntries m k v = m := by
  induction m with
  | nil => simp [getEntries] at h
  | cons e rest ih =>
    obtain ⟨k0, v0⟩ := e
    by_cases hk : k0 = k
    · subst hk
      simp only [getEntries, if_true, Option.some.injEq] at h
      simp [setEntries, h]
    · simp only [getEntries, hk, if_false] at h
      simp [setEntries, hk, ih h]

theorem Set_of_Values (h : Header) (key value : GoString)
    (hv : Header.Values h key = some [value]) : Header.Set h key value = h := by
  unfold Header.Values GoMap.get at hv
  unfold Header.Set GoMap.set
  rw [setEntries_of_getEntries _ _ _ hv]

theorem foldl_Set_fixed (l : List (GoString × GoString)) (h : Header)
    (hv : ∀ kv ∈ l, Header.Values h kv.1 = some [kv.2]) :
    l.foldl (fun h kv => Header.Set h kv.1 kv.2) h = h := by
  induction l with
  | nil => rfl
  | cons e rest ih =>
    rw [List.foldl_cons, Set_of_Values h e.1 e.2 (hv e (by simp))]
    exact ih (fun kv hkv => hv kv (List.mem_cons_of_mem _ hkv))


theorem TrimSpace_of_noOuterSpace (s : GoString) (h : noOuterSpace s) : TrimSpace s = s := by
  obtain ⟨hhead, hlast⟩ := h
  unfold TrimSpace
  have h1 : s.dropWhile IsSpace = s := by
    cases s with
    | nil => rfl
    | cons c cs =>
      have hc : IsSpace c ≠ true := by
        intro e
        apply hhead
        simp [e]
      simp [List.dropWhile_cons, hc]
  rw [h1, List.rdropWhile_eq_self_iff]
  intro hne e
  apply hlast
  rw [List.getLast?_eq_getLast s hne]
  simp [e]

theorem setEntries_of_not_mem {V : Type} (m : List (GoString × V)) (k : GoString) (v : V)
    (h : k ∉ m.map Prod.fst) : setEntries m k v = m ++ [(k, v)] := by
  induction m with
  | nil => rfl
  | cons e rest ih =>
    obtain ⟨k0, v0⟩ := e
    simp only [List.map_cons, List.mem_cons, not_or] at h
    have hk : ¬ k0 = k := fun e => h.1 e.symm
    simp [setEntries, hk, ih h.2]

theorem getEntries_eq_some_iff {V : Type} (l : List (GoString × V)) (k : GoString) (v : V)
    (hnd : (l.map Prod.fst).Nodup) : getEntries l k = some v ↔ (k, v) ∈ l := by
  induction l with
  | nil => simp [getEntries]
  | cons e rest ih =>
    obtain ⟨k0, v0⟩ := e
    simp only [List.map_cons, List.nodup_cons] at hnd
    by_cases hk : k0 = k
    · subst hk
      simp only [getEntries, if_true, Option.some.injEq, List.mem_cons, Prod.mk.injEq, true_and]
      constructor
      · intro e; exact Or.inl e.symm
      · intro e
        rcases e with e | e
        · exact e.symm
        · exact absurd (List.mem_map_of_mem Prod.fst e) hnd.1
    · simp only [getEntries, hk, if_false, List.mem_cons, Prod.mk.injEq]
      rw [ih hnd.2]
      constructor
      · intro e; exact Or.inr e
      · intro e
        rcases e with e | e
        · exact absurd e.1.symm hk
        · exact e

theorem getEntries_perm {V : Type} (l1 l2 : List (GoString × V)) (k : GoString)
    (hperm : l1.Perm l2) (hnd : (l2.map Prod.fst).Nodup) : getEntries l1 k = getEntries l2 k := by
  have hnd1 : (l1.map Prod.fst).Nodup := ((hperm.map Prod.fst).nodup_iff).mpr hnd
  apply Option.ext
  intro v
  simp only [Option.mem_def]
  rw [getEntries_eq_some_iff l1 k v hnd1, getEntries_eq_some_iff l2 k v hnd, hperm.mem_iff]

theorem parseHeadersPair_entry (m : GoMap GoString) (kv : GoString × GoString)
    (hcolon : ':' ∉ kv.1) (hk : noOuterSpace kv.1) (hv : noOuterSpace kv.2) :
    parseHeadersPair m (headerListEntry kv) = GoMap.set m kv.1 kv.2 := by
  rw [parseHeadersPair_eq]
  unfold headerListEntry
  rw [cut_append ':' kv.1 kv.2 hcolon]
  simp only [TrimSpace_of_noOuterSpace _ hk, TrimSpace_of_noOuterSpace _ hv]

theorem foldl_parseHeadersPair_entries (l m : List (GoString × GoString))
    (hnd : ((m ++ l).map Prod.fst).Nodup)
    (hl : ∀ kv ∈ l, ':' ∉ kv.1 ∧ noOuterSpace kv.1 ∧ noOuterSpace kv.2) :
    (l.map headerListEntry).foldl parseHeadersPair ⟨m⟩ = ⟨m ++ l⟩ := by
  induction l generalizing m with
  | nil => simp
  | cons e rest ih =>
    obtain ⟨h1, h2, h3⟩ := hl e (by simp)
    have hnot : e.1 ∉ m.map Prod.fst := by
      intro hmem
      rw [List.map_append, List.map_cons] at hnd
      have := List.nodup_append.mp hnd
      exact this.2.2 hmem (by simp)
    rw [List.map_cons, List.foldl_cons, parseHeadersPair_entry _ e h1 h2 h3]
    unfold GoMap.set
    simp only
    rw [setEntries_of_not_mem m e.1 e.2 hnot]
    have hnd2 : (((m ++ [(e.1, e.2)]) ++ rest).map Prod.fst).Nodup := by
      simpa using hnd
    rw [ih (m ++ [(e.1, e.2)]) hnd2 (fun kv hkv => hl kv (List.mem_cons_of_mem _ hkv))]
    simp

theorem headerListEntry_no_semicolon (kv : GoString × GoString) (hk : ';' ∉ kv.1)
    (hv : ';' ∉ kv.2) : ';' ∉ headerListEntry kv := by
  unfold headerListEntry
  simp only [List.mem_append, List.mem_cons, not_or]
  exact ⟨hk, by decide, hv⟩


theorem readHeadLines_append (data extra cur : List Nat) (lines : List (List Nat))
    (rest : List Nat) (h : readHeadLines cur data = some (lines, rest)) :
    readHeadLines cur (data ++ extra) = some (lines, rest ++ extra) := by
  induction data generalizing cur lines rest with
  | nil => simp [readHeadLines] at h
  | cons b bs ih =>
    rw [List.cons_append]
    unfold readHeadLines at h ⊢
    by_cases hb : b = 10
    · simp only [hb, if_true] at h ⊢
      by_cases hc : dropCR cur.reverse = []
      · simp only [hc, if_true, Option.some.injEq, Prod.mk.injEq] at h ⊢
        obtain ⟨h1, h2⟩ := h
        exact ⟨h1, by rw [h2]⟩
      · simp only [hc, if_false] at h ⊢
        cases hr : readHeadLines [] bs with
        | none => simp [hr] at h
        | some lr =>
          obtain ⟨ls, r⟩ := lr
          simp only [hr, Option.some.injEq, Prod.mk.injEq] at h
          obtain ⟨h1, h2⟩ := h
          rw [ih [] ls r hr]
          simp [h1, h2]
    · simp only [hb, if_false] at h ⊢
      exact ih (b :: cur) lines rest h

/-- The bytes after the head do not decide whether `ReadResponse` returns a
response, and reach the response through its body only. -/
theorem goReadResponse_append (data extra : List Nat) (resp : Response)
    (h : goReadResponse data = some (Except.ok resp)) :
    ∃ body, goReadResponse (data ++ extra) = some (Except.ok { resp with Body := body }) := by
  unfold goReadResponse at h ⊢
  cases hl : readHeadLines [] data with
  | none => simp [hl] at h
  | some lr =>
    obtain ⟨lines, rest⟩ := lr
    rw [readHeadLines_append data extra [] lines rest hl]
    simp only [hl] at h
    cases hh : readResponseHead lines with
    | none => simp [hh] at h
    | some res =>
      cases res with
      | error e => simp [hh] at h
      | ok r =>
        simp only [hh, Option.some.injEq, Except.ok.injEq] at h ⊢
        subst h
        exact ⟨transferBody r (rest ++ extra), rfl⟩

theorem goReadResponse_incomplete (data : List Nat) (h : readHeadLines [] data = none) :
    goReadResponse data = some (Except.error "unexpected EOF") := by
  unfold goReadResponse
  rw [h]

/-- Where the model of `http.ReadResponse` has a result, it is the result of
`goNet`, whatever the function for the other heads. -/
theorem goNet_ReadResponse (other : List Nat → Except GoError Response) (data : List Nat)
    (res : Except GoError Response) (h : goReadResponse data = some res) :
    (goNet other).ReadResponse data = res := by
  simp [goNet, h]

theorem forwarded_goNet_ok (other : List Nat → Except GoError Response) (t : HttpToxic)
    (c : StreamChunk) (resp : Response) (h : goReadResponse c.Data = some (Except.ok resp)) :
    forwarded (goNet other) t c = { Data := goWrite (t.ModifyResponse resp) } := by
  unfold forwarded
  rw [goNet_ReadResponse other c.Data _ h]
  rfl

theorem forwarded_goNet_error (other : List Nat → Except GoError Response) (t : HttpToxic)
    (c : StreamChunk) (e : GoError) (h : goReadResponse c.Data = some (Except.error e)) :
    forwarded (goNet other) t c = c := by
  unfold forwarded
  rw [goNet_ReadResponse other c.Data _ h]

/-! ## The rewrite engine -/

/-- C2: after `t.ModifyResponse(r)` the status code of the response is
`t.StatusCode`, reading its body yields the bytes of `t.ResponseBody`, and its
content length is the number of bytes of `t.ResponseBody`. -/
theorem ModifyResponse_status_body_length (t : HttpToxic) (r : Response) :
    (t.ModifyResponse r).StatusCode = t.StatusCode
      ∧ (t.ModifyResponse r).Body = GoString.bytes t.ResponseBody
      ∧ (t.ModifyResponse r).ContentLength = ((GoString.bytes t.ResponseBody).length : Int) := by
  refine ⟨rfl, rfl, rfl⟩

/-- The content length counts bytes, not characters: the body `né` has two
characters and three bytes. -/
theorem ModifyResponse_length_in_bytes :
    ({ sampleToxic with ResponseBody := "né".toList }.ModifyResponse sampleResponse).ContentLength
        = 3
      ∧ "né".toList.length = 2 := by
  decide

/-- C3, as stated, fails: the configured headers `a: 1` and `A: 2` (two distinct
keys of the map) are written to the one header `A`, so the response cannot
carry the configured value of both, in whichever order the map is visited. -/
theorem ModifyResponse_headers_counterexample :
    ¬ (∀ (t : HttpToxic) (r : Response) (name value : GoString),
        GoMap.WF t.ResponseHeaders → (name, value) ∈ t.ResponseHeaders.entries →
        Header.Values (t.ModifyResponse r).Header name = some [value]) := by
  intro h
  have h1 := h clashToxic sampleResponse "a".toList "1".toList (by decide) (by decide)
  revert h1
  decide

/-- The clash of the keys `a` and `A` in either order of the `range` loop: the
header `A` holds the value written last, and the other configured value is
lost. -/
theorem ModifyResponse_clash_either_order :
    Header.Values (clashToxic.ModifyResponse sampleResponse).Header "a".toList
        = some ["2".toList]
      ∧ Header.Values
          ({ clashToxic with
              ResponseHeaders := ⟨[("A".toList, "2".toList), ("a".toList, "1".toList)]⟩
            }.ModifyResponse sampleResponse).Header "A".toList
        = some ["1".toList] := by
  decide

/-- C3, amended: after `t.ModifyResponse(r)`, a configured pair `(name, value)`
such that every configured key with the canonical form of `name` carries
`value` has its header present with exactly the value `value`. -/
theorem ModifyResponse_sets_headers (t : HttpToxic) (r : Response) (name value : GoString)
    (hmem : (name, value) ∈ t.ResponseHeaders.entries)
    (hagree : ∀ k v, (k, v) ∈ t.ResponseHeaders.entries →
      CanonicalMIMEHeaderKey k = CanonicalMIMEHeaderKey name → v = value) :
    Header.Values (t.ModifyResponse r).Header name = some [value] := by
  rw [ModifyResponse_Header]
  exact Values_foldl_Set _ _ name value hmem hagree

/-- Witness of C3 amended: the header `x-toxic: 1` of the sample toxic. -/
theorem ModifyResponse_sets_headers_witness :
    ("x-toxic".toList, "1".toList) ∈ sampleToxic.ResponseHeaders.entries
      ∧ Header.Values (sampleToxic.ModifyResponse sampleResponse).Header "x-toxic".toList
          = some ["1".toList] :=
  ⟨by decide,
   ModifyResponse_sets_headers sampleToxic sampleResponse "x-toxic".toList "1".toList
     (by decide)
     (by
       intro k v hm _
       simp only [sampleToxic, List.mem_singleton, Prod.mk.injEq] at hm
       exact hm.2)⟩

/-! ## The loop -/

/-- C1: when the bytes of a chunk received from `Input` fail to parse, the
iteration sends that chunk on `Output` with its payload unchanged. -/
theorem Pipe_parse_failure_forwards_payload (net : NetHttp) (t : HttpToxic) (c : StreamChunk)
    (e : GoError) (input out : List (Option StreamChunk)) (intr closed : Nat)
    (herr : net.ReadResponse c.Data = Except.error e) :
    t.PipeIteration net SelectCase.Input
        { Input := some c :: input, Output := out, Interrupt := intr, Closed := closed }
      = some (Iteration.Continue
          { Input := input, Output := out ++ [some c], Interrupt := intr, Closed := closed }) := by
  unfold HttpToxic.PipeIteration
  simp [herr]

/-- Witness of C1: a chunk that does not start with `H`. -/
theorem Pipe_parse_failure_forwards_payload_witness :
    sampleNet.ReadResponse (StreamChunk.mk [1, 2, 3]).Data = Except.error "malformed HTTP response"
      ∧ sampleToxic.PipeIteration sampleNet SelectCase.Input
          { Input := [some ⟨[1, 2, 3]⟩], Output := [], Interrupt := 0, Closed := 0 }
        = some (Iteration.Continue
            { Input := [], Output := [] ++ [some ⟨[1, 2, 3]⟩], Interrupt := 0, Closed := 0 }) :=
  ⟨rfl,
   Pipe_parse_failure_forwards_payload sampleNet sampleToxic ⟨[1, 2, 3]⟩
     "malformed HTTP response" [] [] 0 0 rfl⟩

/-- C4: on the input `c1..cn` followed by the nil chunk, with no interrupt,
`Pipe` returns after `n + 1` iterations having sent exactly the `n` chunks
`forwarded c1 .. forwarded cn` on `Output`, in that order; and every run on
these inputs is a prefix of that one: the `select` can only take the `Input`
case, and after `k ≤ n` iterations the first `k` chunks have been sent. -/
theorem Pipe_forwards_in_order (net : NetHttp) (t : HttpToxic) (cs : List StreamChunk)
    (later out : List (Option StreamChunk)) (closed : Nat) :
    t.Pipe net (List.replicate (cs.length + 1) SelectCase.Input)
        { Input := cs.map some ++ none :: later, Output := out, Interrupt := 0, Closed := closed }
      = PipeRun.Returned
          { Input := later, Output := out ++ cs.map (fun c => some (forwarded net t c)),
            Interrupt := 0, Closed := closed + 1 }
    ∧ ∀ picks : List SelectCase,
      t.Pipe net picks
        { Input := cs.map some ++ none :: later, Output := out, Interrupt := 0, Closed := closed }
      = if (picks.take (cs.length + 1)).all (fun pick => decide (pick = SelectCase.Input)) then
          if picks.length ≤ cs.length then
            PipeRun.Waiting
              { Input := (cs.drop picks.length).map some ++ none :: later,
                Output := out ++ (cs.take picks.length).map (fun c => some (forwarded net t c)),
                Interrupt := 0, Closed := closed }
          else
            PipeRun.Returned
              { Input := later,
                Output := out ++ cs.map (fun c => some (forwarded net t c)),
                Interrupt := 0, Closed := closed + 1 }
        else PipeRun.Refused := by
  refine ⟨?_, fun picks => Pipe_run net t cs later out closed picks⟩
  rw [Pipe_run]
  simp

/-- C5: when the chunk received from `Input` is nil, `Pipe` returns in that
iteration with `Close` invoked once more, nothing sent on `Output`, and what
follows the nil chunk on `Input` left there, whatever choices remain. -/
theorem Pipe_nil_closes_and_returns (net : NetHttp) (t : HttpToxic)
    (later out : List (Option StreamChunk)) (intr closed : Nat) (picks : List SelectCase) :
    t.Pipe net (SelectCase.Input :: picks)
        { Input := none :: later, Output := out, Interrupt := intr, Closed := closed }
      = PipeRun.Returned
          { Input := later, Output := out, Interrupt := intr, Closed := closed + 1 } := by
  simp [HttpToxic.Pipe, HttpToxic.PipeIteration, ToxicStub.Close]

/-- C6, as stated, fails: with an interrupt pending and a chunk ready on `Input`
the `Input` case can proceed, and the iteration that takes it reads and forwards
the chunk and does not return. -/
theorem Pipe_interrupt_counterexample :
    ¬ (∀ (net : NetHttp) (t : HttpToxic) (stub : ToxicStub) (pick : SelectCase),
        0 < stub.Interrupt → canProceed stub pick = true →
        ∃ stub2, t.PipeIteration net pick stub = some (Iteration.Return stub2)
          ∧ stub2.Input = stub.Input ∧ stub2.Output = stub.Output
          ∧ stub2.Closed = stub.Closed) := by
  intro h
  obtain ⟨stub2, h1, _⟩ := h sampleNet sampleToxic
    { Input := [some ⟨[1, 2, 3]⟩], Output := [], Interrupt := 1, Closed := 0 }
    SelectCase.Input (by decide) (by decide)
  rw [PipeIteration_chunk] at h1
  cases h1

/-- C6, amended: with an interrupt pending, when the `select` takes the
`Interrupt` case `Pipe` returns in that iteration, with `Input`, `Output` and
the count of `Close` as they were, even if a chunk is ready on `Input`; and
when no chunk is ready on `Input`, `Interrupt` is the only case that can
proceed. -/
theorem Pipe_interrupt_returns (net : NetHttp) (t : HttpToxic) (stub : ToxicStub)
    (picks : List SelectCase) (h : 0 < stub.Interrupt) :
    t.Pipe net (SelectCase.Interrupt :: picks) stub
        = PipeRun.Returned { stub with Interrupt := stub.Interrupt - 1 }
      ∧ (stub.Input = [] → ∀ pick, canProceed stub pick = true → pick = SelectCase.Interrupt) := by
  constructor
  · simp [HttpToxic.Pipe, HttpToxic.PipeIteration, h]
  · intro hin pick hp
    cases pick with
    | Interrupt => rfl
    | Input => simp [canProceed, hin] at hp

/-- Witness of C6 amended: an interrupt pending with a chunk ready. -/
theorem Pipe_interrupt_returns_witness :
    sampleToxic.Pipe sampleNet [SelectCase.Interrupt, SelectCase.Input]
        { Input := [some ⟨[1, 2, 3]⟩], Output := [], Interrupt := 1, Closed := 0 }
      = PipeRun.Returned
          { Input := [some ⟨[1, 2, 3]⟩], Output := [], Interrupt := 0, Closed := 0 } :=
  (Pipe_interrupt_returns sampleNet sampleToxic
    { Input := [some ⟨[1, 2, 3]⟩], Output := [], Interrupt := 1, Closed := 0 }
    [SelectCase.Input] (by decide)).1

/-! ## The header-list parser -/

/-- C7: the `;`-delimited segments without `:` contribute nothing: leaving one
of them out, or all of them, does not change the result of `parseHeaders`; and
`parseHeaders("a:1;b: 2 ;bad")` is the two-entry map `a ↦ 1, b ↦ 2`. -/
theorem parseHeaders_drops_malformed (segs : List GoString) (h : ∀ seg ∈ segs, ';' ∉ seg) :
    parseHeaders (Join ';' segs)
        = parseHeaders (Join ';' (segs.filter (fun seg => decide (':' ∈ seg))))
      ∧ (∀ pre seg post, segs = pre ++ seg :: post → ':' ∉ seg →
          parseHeaders (Join ';' segs) = parseHeaders (Join ';' (pre ++ post)))
      ∧ (∀ s : GoString, parseHeaders s
          = parseHeaders (Join ';' ((Split s ';').filter (fun seg => decide (':' ∈ seg)))))
      ∧ parseHeaders "a:1;b: 2 ;bad".toList
          = ⟨[("a".toList, "1".toList), ("b".toList, "2".toList)]⟩ := by
  refine ⟨?_, ?_, ?_, by decide⟩
  · rw [parseHeaders_Join segs h, parseHeaders_Join _ (fun seg hs => h seg (List.mem_filter.mp hs).1),
      foldl_parseHeadersPair_filter]
  · intro pre seg post hs hc
    subst hs
    have hpp : ∀ p ∈ pre ++ post, ';' ∉ p := by
      intro p hp
      apply h p
      rcases List.mem_append.mp hp with hp | hp
      · exact List.mem_append_left _ hp
      · exact List.mem_append_right _ (List.mem_cons_of_mem _ hp)
    rw [parseHeaders_Join _ h, parseHeaders_Join _ hpp]
    simp [List.foldl_append, parseHeadersPair_no_colon _ seg hc]
  · intro s
    obtain ⟨hfree, hjoin⟩ := Split_spec ';' s
    conv_lhs => rw [← hjoin]
    rw [parseHeaders_Join _ hfree,
      parseHeaders_Join _ (fun seg hs => hfree seg (List.mem_filter.mp hs).1),
      foldl_parseHeadersPair_filter]

/-- Witness of C7: the segments `a:1`, `bad`, `b: 2 `. -/
theorem parseHeaders_drops_malformed_witness :
    parseHeaders (Join ';' ["a:1".toList, "bad".toList, "b: 2 ".toList])
      = parseHeaders (Join ';' (["a:1".toList, "bad".toList, "b: 2 ".toList].filter
          (fun seg => decide (':' ∈ seg)))) :=
  (parseHeaders_drops_malformed ["a:1".toList, "bad".toList, "b: 2 ".toList]
    (by decide)).1

/-- C8: for a string without `;` and with a `:`, `parseHeaders` returns the
one-entry map from the trimmed text before the first `:` to the trimmed text
after it; `Location: http://h:80/` maps `Location` to `http://h:80/`. -/
theorem parseHeaders_first_colon (s : GoString) (hsemi : ';' ∉ s) (hcolon : ':' ∈ s) :
    parseHeaders s = ⟨[(TrimSpace (beforeColon s), TrimSpace (afterColon s))]⟩
      ∧ parseHeaders "Location: http://h:80/".toList
          = ⟨[("Location".toList, "http://h:80/".toList)]⟩ := by
  refine ⟨?_, by decide⟩
  have h1 := parseHeaders_Join [s] (by simpa using hsemi)
  simp only [Join] at h1
  rw [h1]
  simp [parseHeadersPair_colon _ s hcolon, GoMap.set, GoMap.empty, setEntries]

/-- Witness of C8: the string ` k : v:w `. -/
theorem parseHeaders_first_colon_witness :
    parseHeaders " k : v:w ".toList
      = ⟨[(TrimSpace (beforeColon " k : v:w ".toList), TrimSpace (afterColon " k : v:w ".toList))]⟩ :=
  (parseHeaders_first_colon " k : v:w ".toList (by decide) (by decide)).1

/-- C9: when `seg` is the last segment with its trimmed key, the value stored
under that key is the trimmed value of `seg`; `parseHeaders("a:1;a:2")` is the
map `a ↦ 2`. -/
theorem parseHeaders_last_wins (pre post : List GoString) (seg : GoString)
    (h : ∀ p ∈ pre ++ seg :: post, ';' ∉ p) (hcolon : ':' ∈ seg)
    (hlast : ∀ p ∈ post, ':' ∈ p → TrimSpace (beforeColon p) ≠ TrimSpace (beforeColon seg)) :
    GoMap.get (parseHeaders (Join ';' (pre ++ seg :: post))) (TrimSpace (beforeColon seg))
        = some (TrimSpace (afterColon seg))
      ∧ parseHeaders "a:1;a:2".toList = ⟨[("a".toList, "2".toList)]⟩ := by
  refine ⟨?_, by decide⟩
  rw [parseHeaders_Join _ h, List.foldl_append, List.foldl_cons,
    foldl_parseHeadersPair_get post _ _ hlast, parseHeadersPair_colon _ seg hcolon, get_set,
    if_pos rfl]

/-- Witness of C9: the key `a` set by the segments `a:1`, ` a : 2` and followed
by `b:3`. -/
theorem parseHeaders_last_wins_witness :
    GoMap.get (parseHeaders (Join ';' (["a:1".toList] ++ " a : 2".toList :: ["b:3".toList])))
        (TrimSpace (beforeColon " a : 2".toList))
      = some (TrimSpace (afterColon " a : 2".toList)) :=
  (parseHeaders_last_wins ["a:1".toList] ["b:3".toList] " a : 2".toList
    (by decide) (by decide) (by decide)).1

/-- C10: `parseHeaders("")` is the empty map, with no entry. -/
theorem parseHeaders_empty :
    parseHeaders "".toList = GoMap.empty ∧ GoMap.len (parseHeaders "".toList) = 0 := by
  decide

/-! ## The rewrite engine, continued -/

/-- C11, as stated, fails: the two applications of `ModifyResponse` are two
`range` loops over the same map, which Go may visit in different orders; with
the configured headers `a: 1` and `A: 2` the first application can leave the
header `A` at `2` and the second one put it at `1`. -/
theorem ModifyResponse_idempotent_counterexample :
    ¬ (∀ (t t2 : HttpToxic) (r : Response),
        t2.StatusCode = t.StatusCode → t2.ResponseBody = t.ResponseBody →
        t2.ResponseHeaders.entries.Perm t.ResponseHeaders.entries →
        GoMap.WF t.ResponseHeaders →
        t2.ModifyResponse (t.ModifyResponse r) = t.ModifyResponse r) := by
  intro h
  have h1 := h clashToxic
    { clashToxic with
      ResponseHeaders := ⟨[("A".toList, "2".toList), ("a".toList, "1".toList)]⟩ }
    sampleResponse rfl rfl (List.Perm.swap _ _ _) (by decide)
  revert h1
  decide

/-- C11, amended: for a config in which the keys with one canonical form carry
one value, applying `ModifyResponse` to a response already rewritten with that
config yields the same response, in whatever order the second application
visits the configured headers, and so the same serialisation. -/
theorem ModifyResponse_idempotent (net : NetHttp) (t t2 : HttpToxic) (r : Response)
    (hstatus : t2.StatusCode = t.StatusCode) (hbody : t2.ResponseBody = t.ResponseBody)
    (hperm : t2.ResponseHeaders.entries.Perm t.ResponseHeaders.entries)
    (hagree : ∀ kv ∈ t.ResponseHeaders.entries, ∀ kv2 ∈ t.ResponseHeaders.entries,
      CanonicalMIMEHeaderKey kv.1 = CanonicalMIMEHeaderKey kv2.1 → kv.2 = kv2.2) :
    t2.ModifyResponse (t.ModifyResponse r) = t.ModifyResponse r
      ∧ net.Write (t2.ModifyResponse (t.ModifyResponse r)) = net.Write (t.ModifyResponse r) := by
  have key : t2.ModifyResponse (t.ModifyResponse r) = t.ModifyResponse r := by
    rw [ModifyResponse_eq t2 (t.ModifyResponse r)]
    have hfix : t2.ResponseHeaders.entries.foldl (fun h kv => Header.Set h kv.1 kv.2)
        (t.ModifyResponse r).Header = (t.ModifyResponse r).Header := by
      apply foldl_Set_fixed
      intro kv hkv
      have hmem : kv ∈ t.ResponseHeaders.entries := hperm.subset hkv
      rw [ModifyResponse_Header]
      apply Values_foldl_Set _ _ kv.1 kv.2 hmem
      intro k v hm hc
      exact hagree (k, v) hm kv hmem hc
    rw [hfix, hstatus, hbody, ModifyResponse_eq t r]
  exact ⟨key, by rw [key]⟩

/-- Witness of C11 amended: the sample toxic, twice. -/
theorem ModifyResponse_idempotent_witness :
    sampleToxic.ModifyResponse (sampleToxic.ModifyResponse sampleResponse)
      = sampleToxic.ModifyResponse sampleResponse :=
  (ModifyResponse_idempotent sampleNet sampleToxic sampleToxic sampleResponse rfl rfl
    (List.Perm.refl _)
    (by
      intro kv hkv kv2 hkv2 _
      simp only [sampleToxic, List.mem_singleton] at hkv hkv2
      rw [hkv, hkv2])).1

/-- C14: `GetBufferSize` returns 1024, a positive constant, for every toxic. -/
theorem GetBufferSize_constant (t : HttpToxic) :
    t.GetBufferSize = 1024 ∧ 0 < t.GetBufferSize
      ∧ ∀ t2 : HttpToxic, t2.GetBufferSize = t.GetBufferSize := by
  refine ⟨rfl, ?_, fun _ => rfl⟩
  show (0 : Int) < 1024
  decide

/-- C17: `ModifyResponse` leaves the status text, the protocol version, the
transfer encoding, the close flag and the trailer of the response as they were,
and a header whose key is not the canonical form of a configured key keeps its
values. -/
theorem ModifyResponse_frame (t : HttpToxic) (r : Response) (key : GoString)
    (hother : ∀ kv ∈ t.ResponseHeaders.entries, CanonicalMIMEHeaderKey kv.1 ≠ key) :
    (t.ModifyResponse r).Status = r.Status
      ∧ (t.ModifyResponse r).Proto = r.Proto
      ∧ (t.ModifyResponse r).ProtoMajor = r.ProtoMajor
      ∧ (t.ModifyResponse r).ProtoMinor = r.ProtoMinor
      ∧ (t.ModifyResponse r).TransferEncoding = r.TransferEncoding
      ∧ (t.ModifyResponse r).Close = r.Close
      ∧ (t.ModifyResponse r).Uncompressed = r.Uncompressed
      ∧ (t.ModifyResponse r).Trailer = r.Trailer
      ∧ GoMap.get (t.ModifyResponse r).Header key = GoMap.get r.Header key := by
  rw [ModifyResponse_eq]
  refine ⟨rfl, rfl, rfl, rfl, rfl, rfl, rfl, rfl, ?_⟩
  exact get_foldl_Set_other _ _ key hother

/-- Witness of C17: the header `Content-Type` of the sample response. -/
theorem ModifyResponse_frame_witness :
    GoMap.get (sampleToxic.ModifyResponse sampleResponse).Header "Content-Type".toList
      = GoMap.get sampleResponse.Header "Content-Type".toList :=
  (ModifyResponse_frame sampleToxic sampleResponse "Content-Type".toList (by decide)).2.2.2.2.2.2.2.2

/-! ## The loop, continued -/

/-- C15: an iteration of the loop of `Pipe` performs exactly one of the four
outcomes; when the loop goes on, exactly one chunk has been appended to
`Output`, and when `Pipe` returns, `Output` is as it was. -/
theorem PipeIteration_one_outcome (net : NetHttp) (t : HttpToxic) (pick : SelectCase)
    (stub : ToxicStub) (it : Iteration) (h : t.PipeIteration net pick stub = some it) :
    (∃! o : Outcome, performs net t pick stub it o)
      ∧ (match it with
          | Iteration.Continue stub2 =>
            (∃ c, stub2.Output = stub.Output ++ [some c]) ∧ stub2.Closed = stub.Closed
          | Iteration.Return stub2 => stub2.Output = stub.Output) := by
  obtain ⟨input0, output0, intr0, closed0⟩ := stub
  cases pick with
  | Interrupt =>
    by_cases hi : 0 < intr0
    · simp only [HttpToxic.PipeIteration, hi, if_true, Option.some.injEq] at h
      subst h
      refine ⟨⟨Outcome.TerminateInterrupt, ⟨rfl, hi, rfl⟩, ?_⟩, rfl⟩
      intro o ho
      cases o with
      | ForwardModified => obtain ⟨_, _, _, hp, _⟩ := ho; cases hp
      | ForwardOriginal => obtain ⟨_, _, _, hp, _⟩ := ho; cases hp
      | TerminateNil => obtain ⟨_, hp, _⟩ := ho; cases hp
      | TerminateInterrupt => rfl
    · simp [HttpToxic.PipeIteration, hi] at h
  | Input =>
    cases input0 with
    | nil => simp [HttpToxic.PipeIteration] at h
    | cons x input =>
      cases x with
      | none =>
        simp only [HttpToxic.PipeIteration, ToxicStub.Close, Option.some.injEq] at h
        subst h
        refine ⟨⟨Outcome.TerminateNil, ⟨input, rfl, rfl, rfl⟩, ?_⟩, rfl⟩
        intro o ho
        cases o with
        | ForwardModified => obtain ⟨_, _, _, _, hin, _⟩ := ho; simp at hin
        | ForwardOriginal => obtain ⟨_, _, _, _, hin, _⟩ := ho; simp at hin
        | TerminateNil => rfl
        | TerminateInterrupt => obtain ⟨hp, _⟩ := ho; cases hp
      | some c =>
        cases hr : net.ReadResponse c.Data with
        | ok resp =>
          simp only [HttpToxic.PipeIteration, hr, Option.some.injEq] at h
          subst h
          refine ⟨⟨Outcome.ForwardModified, ⟨c, input, resp, rfl, rfl, hr, rfl⟩, ?_⟩,
            ⟨_, rfl⟩, rfl⟩
          intro o ho
          cases o with
          | ForwardModified => rfl
          | ForwardOriginal =>
            obtain ⟨c2, _, e, _, hin, hr2, _⟩ := ho
            simp only [List.cons.injEq, Option.some.injEq] at hin
            rw [← hin.1, hr] at hr2
            cases hr2
          | TerminateNil => obtain ⟨_, _, hin, _⟩ := ho; simp at hin
          | TerminateInterrupt => obtain ⟨hp, _⟩ := ho; cases hp
        | error e =>
          simp only [HttpToxic.PipeIteration, hr, Option.some.injEq] at h
          subst h
          refine ⟨⟨Outcome.ForwardOriginal, ⟨c, input, e, rfl, rfl, hr, rfl⟩, ?_⟩,
            ⟨_, rfl⟩, rfl⟩
          intro o ho
          cases o with
          | ForwardModified =>
            obtain ⟨c2, _, resp, _, hin, hr2, _⟩ := ho
            simp only [List.cons.injEq, Option.some.injEq] at hin
            rw [← hin.1, hr] at hr2
            cases hr2
          | ForwardOriginal => rfl
          | TerminateNil => obtain ⟨_, _, hin, _⟩ := ho; simp at hin
          | TerminateInterrupt => obtain ⟨hp, _⟩ := ho; cases hp

/-- Witness of C15: the iteration that receives a chunk which does not parse. -/
theorem PipeIteration_one_outcome_witness :
    ∃! o : Outcome, performs sampleNet sampleToxic SelectCase.Input
      { Input := [some ⟨[1, 2, 3]⟩], Output := [], Interrupt := 1, Closed := 0 }
      (Iteration.Continue
        { Input := [], Output := [some ⟨[1, 2, 3]⟩], Interrupt := 1, Closed := 0 }) o :=
  (PipeIteration_one_outcome sampleNet sampleToxic SelectCase.Input
    { Input := [some ⟨[1, 2, 3]⟩], Output := [], Interrupt := 1, Closed := 0 }
    (Iteration.Continue
      { Input := [], Output := [some ⟨[1, 2, 3]⟩], Interrupt := 1, Closed := 0 })
    (by decide)).1

/-- C16: when the bytes of a chunk received from `Input` parse to the response
`resp`, the chunk sent on `Output` has as its whole payload the bytes that
`Write` produces for `resp` after `ModifyResponse`. -/
theorem Pipe_parse_success_rewrites_payload (net : NetHttp) (t : HttpToxic) (c : StreamChunk)
    (resp : Response) (input out : List (Option StreamChunk)) (intr closed : Nat)
    (hok : net.ReadResponse c.Data = Except.ok resp) :
    t.PipeIteration net SelectCase.Input
        { Input := some c :: input, Output := out, Interrupt := intr, Closed := closed }
      = some (Iteration.Continue
          { Input := input,
            Output := out ++ [some { Data := net.Write (t.ModifyResponse resp) }],
            Interrupt := intr, Closed := closed }) := by
  unfold HttpToxic.PipeIteration
  simp [hok]


/-! ## The header-list parser, continued -/

/-- C18: for a map whose keys contain neither `;` nor `:`, whose values
contain no `;`, and whose keys and values have no outer white space, the
entries joined as `key:value` with `;`, in any order, parse back to that map:
the same value under every key and the same number of entries. -/
theorem parseHeaders_round_trip (m : GoMap GoString) (order : List (GoString × GoString))
    (hwf : GoMap.WF m) (hperm : order.Perm m.entries)
    (hkeys : ∀ kv ∈ m.entries, ';' ∉ kv.1 ∧ ':' ∉ kv.1 ∧ noOuterSpace kv.1)
    (hvals : ∀ kv ∈ m.entries, ';' ∉ kv.2 ∧ noOuterSpace kv.2) :
    parseHeaders (Join ';' (order.map headerListEntry)) = ⟨order⟩
      ∧ (∀ k, GoMap.get (parseHeaders (Join ';' (order.map headerListEntry))) k = GoMap.get m k)
      ∧ GoMap.len (parseHeaders (Join ';' (order.map headerListEntry))) = GoMap.len m := by
  have hfree : ∀ seg ∈ order.map headerListEntry, ';' ∉ seg := by
    intro seg hseg
    obtain ⟨kv, hkv, rfl⟩ := List.mem_map.mp hseg
    have hmem : kv ∈ m.entries := hperm.subset hkv
    exact headerListEntry_no_semicolon kv (hkeys kv hmem).1 (hvals kv hmem).1
  have hnd : (order.map Prod.fst).Nodup := ((hperm.map Prod.fst).nodup_iff).mpr hwf
  have hparse : parseHeaders (Join ';' (order.map headerListEntry)) = ⟨order⟩ := by
    rw [parseHeaders_Join _ hfree]
    have := foldl_parseHeadersPair_entries order [] (by simpa using hnd)
      (fun kv hkv =>
        ⟨(hkeys kv (hperm.subset hkv)).2.1, (hkeys kv (hperm.subset hkv)).2.2,
          (hvals kv (hperm.subset hkv)).2⟩)
    simpa [GoMap.empty] using this
  refine ⟨hparse, ?_, ?_⟩
  · intro k
    rw [hparse]
    exact getEntries_perm order m.entries k hperm hwf
  · rw [hparse]
    exact hperm.length_eq

/-- Witness of C18: the map `a ↦ 1, b ↦ x:y`, joined as `b:x:y;a:1`. -/
theorem parseHeaders_round_trip_witness :
    parseHeaders (Join ';'
        ([("b".toList, "x:y".toList), ("a".toList, "1".toList)].map headerListEntry))
      = ⟨[("b".toList, "x:y".toList), ("a".toList, "1".toList)]⟩ :=
  (parseHeaders_round_trip ⟨[("a".toList, "1".toList), ("b".toList, "x:y".toList)]⟩
    [("b".toList, "x:y".toList), ("a".toList, "1".toList)]
    (by decide) (List.Perm.swap _ _ _) (by decide) (by decide)).1


/-! ## The loop on the bytes of HTTP responses -/

/-- Witness of C16: a chunk that starts with `H` parses, for the stand-in of
`net/http`, to the sample response. -/
theorem Pipe_parse_success_rewrites_payload_witness :
    sampleToxic.PipeIteration sampleNet SelectCase.Input
        { Input := [some ⟨[72, 1]⟩], Output := [], Interrupt := 0, Closed := 0 }
      = some (Iteration.Continue
          { Input := [],
            Output := [] ++ [some
              { Data := sampleNet.Write (sampleToxic.ModifyResponse sampleResponse) }],
            Interrupt := 0, Closed := 0 }) :=
  Pipe_parse_success_rewrites_payload sampleNet sampleToxic ⟨[72, 1]⟩ sampleResponse
    [] [] 0 0 rfl

set_option maxRecDepth 100000 in
/-- The rewrite path on the model of `net/http`: a chunk that holds the whole
response `200 OK` with the body `hi` is sent on as the response `503` with the
configured header and the body `down`. -/
theorem Pipe_rewrites_whole_response (other : List Nat → Except GoError Response) :
    sampleToxic.PipeIteration (goNet other) SelectCase.Input
        { Input := [some (chunkOf "HTTP/1.1 200 OK\r\nContent-Length: 2\r\n\r\nhi")],
          Output := [], Interrupt := 0, Closed := 0 }
      = some (Iteration.Continue
          { Input := [],
            Output := [some (chunkOf
              "HTTP/1.1 503 200 OK\r\nContent-Length: 4\r\nX-Toxic: 1\r\n\r\ndown")],
            Interrupt := 0, Closed := 0 }) := by
  rw [PipeIteration_chunk,
    forwarded_goNet_ok other sampleToxic _
      { partialResponse with
        Header := ⟨[("Content-Length".toList, ["2".toList])]⟩
        Body := [104, 105]
        ContentLength := 2 }
      (by decide)]
  decide

set_option maxRecDepth 100000 in
/-- C12 on the code: a response read as chunked keeps `chunked` as its
transfer encoding through `ModifyResponse`, next to the new content length, and
`Pipe` sends it on with a chunked body and no `Content-Length`. -/
theorem Pipe_keeps_chunked_encoding (other : List Nat → Except GoError Response) :
    goReadResponse (chunkOf
        "HTTP/1.1 200 OK\r\nTransfer-Encoding: chunked\r\n\r\n2\r\nhi\r\n0\r\n\r\n").Data
      = some (Except.ok chunkedResponse)
    ∧ chunkedResponse.TransferEncoding = ["chunked".toList]
    ∧ (sampleToxic.ModifyResponse chunkedResponse).TransferEncoding = ["chunked".toList]
    ∧ (sampleToxic.ModifyResponse chunkedResponse).ContentLength = 4
    ∧ sampleToxic.PipeIteration (goNet other) SelectCase.Input
        { Input := [some (chunkOf
            "HTTP/1.1 200 OK\r\nTransfer-Encoding: chunked\r\n\r\n2\r\nhi\r\n0\r\n\r\n")],
          Output := [], Interrupt := 0, Closed := 0 }
      = some (Iteration.Continue
          { Input := [],
            Output := [some (chunkOf
              "HTTP/1.1 503 200 OK\r\nTransfer-Encoding: chunked\r\nX-Toxic: 1\r\n\r\n4\r\ndown\r\n0\r\n\r\n")],
            Interrupt := 0, Closed := 0 }) := by
  refine ⟨by decide, by decide, by decide, by decide, ?_⟩
  rw [PipeIteration_chunk,
    forwarded_goNet_ok other sampleToxic _ chunkedResponse (by decide)]
  decide

set_option maxRecDepth 100000 in
/-- C13 on the code: of a response split over two chunks, the first chunk holds
the head, which announces ten bytes of body, and five of them; `ReadResponse`
does not read the body and returns a response, so `Pipe` sends the rewritten
response on in place of the first chunk, and then the second chunk, the rest of
the old body, as it is. -/
theorem Pipe_rewrites_split_response (other : List Nat → Except GoError Response) :
    goReadResponse (chunkOf "HTTP/1.1 200 OK\r\nContent-Length: 10\r\n\r\nhello").Data
      = some (Except.ok partialResponse)
    ∧ partialResponse.ContentLength = 10 ∧ partialResponse.Body.length = 5
    ∧ sampleToxic.Pipe (goNet other) [SelectCase.Input, SelectCase.Input, SelectCase.Input]
        { Input := [some (chunkOf "HTTP/1.1 200 OK\r\nContent-Length: 10\r\n\r\nhello"),
            some (chunkOf "world"), none],
          Output := [], Interrupt := 0, Closed := 0 }
      = PipeRun.Returned
          { Input := [],
            Output := [some (chunkOf
              "HTTP/1.1 503 200 OK\r\nContent-Length: 4\r\nX-Toxic: 1\r\n\r\ndown"),
              some (chunkOf "world")],
            Interrupt := 0, Closed := 1 } := by
  refine ⟨by decide, by decide, by decide, ?_⟩
  simp only [HttpToxic.Pipe, PipeIteration_chunk,
    forwarded_goNet_ok other sampleToxic
      (chunkOf "HTTP/1.1 200 OK\r\nContent-Length: 10\r\n\r\nhello") partialResponse
      (by decide),
    forwarded_goNet_error other sampleToxic (chunkOf "world") "unexpected EOF" (by decide)]
  simp only [HttpToxic.PipeIteration, ToxicStub.Close]
  decide

end Toxics
